import Mathlib

/-!
# A verification development for the wiki server `wiki.go`

The program is a small wiki served over HTTP.  Its pages are flat text files,
one per title, and every route goes through one gate that checks the title
with a regular expression.

The embedding is shallow.  Go strings and byte slices are sequences of
characters (`String`; the conversion `[]byte(s)` is the identity), the file
system is a map from paths to nodes, and a handler is a
function from the state it can see and change (`World`: the response writer
and the file system) to the new state.  The library functions the program
calls (`regexp`, `path/filepath`, `io/ioutil`, `net/http`) are modelled after
their documented behaviour on Unix.
-/

namespace Wiki

/-! ## `regexp`: a backtracking matcher with submatches -/

/-- Syntax of the regular expressions needed for `validPath`. -/
inductive Regex where
  | beginText : Regex
  | endText : Regex
  | empty : Regex
  | lit : Char → Regex
  | charClass : List (Char × Char) → Regex
  | concat : Regex → Regex → Regex
  | alternate : Regex → Regex → Regex
  | plus : Regex → Regex
  | capture : Nat → Regex → Regex

/-- A thread of the matcher: how many characters of the text are behind it,
what is still ahead, and the text of the groups closed so far (latest first). -/
structure MState where
  pos : Nat
  rest : List Char
  caps : List (Nat × List Char)
deriving DecidableEq, Repr

/-- Membership of a character in a class given by inclusive ranges. -/
def inClass (ranges : List (Char × Char)) (c : Char) : Bool :=
  ranges.any (fun r => decide (r.1.toNat ≤ c.toNat) && decide (c.toNat ≤ r.2.toNat))

/-- Consume one character that satisfies `p`. -/
def stepChar (p : Char → Bool) (s : MState) : List MState :=
  match s.rest with
  | [] => []
  | d :: tl => if p d then [{ s with pos := s.pos + 1, rest := tl }] else []

/-- Greedy repetition, one or more times, of the matcher `m`.  The results are
in priority order, more iterations first.  An iteration that consumes nothing
ends the loop.  The fuel is the length of the text ahead, which bounds the
number of iterations that consume something. -/
def plusLoop (m : MState → List MState) : Nat → MState → List MState
  | 0, s => m s
  | n + 1, s =>
    (m s).flatMap (fun s' => (if s.pos < s'.pos then plusLoop m n s' else []) ++ [s'])

/-- All the ways `re` matches at the thread `s`, in the priority order of a
leftmost-first (Perl-like) matcher, which is the order of Go's `regexp`. -/
def Regex.run : Regex → MState → List MState
  | .beginText, s => if s.pos = 0 then [s] else []
  | .endText, s => if s.rest.isEmpty then [s] else []
  | .empty, s => [s]
  | .lit c, s => stepChar (fun d => d == c) s
  | .charClass rs, s => stepChar (inClass rs) s
  | .concat a b, s => (a.run s).flatMap (fun s' => b.run s')
  | .alternate a b, s => a.run s ++ b.run s
  | .plus r, s => plusLoop (fun s' => r.run s') s.rest.length s
  | .capture i r, s =>
    (r.run s).map (fun s' =>
      { s' with caps := (i, s.rest.take (s'.pos - s.pos)) :: s'.caps })

/-- Number of capture groups, `Regexp.NumSubexp`. -/
def Regex.numSubexp : Regex → Nat
  | .concat a b => max a.numSubexp b.numSubexp
  | .alternate a b => max a.numSubexp b.numSubexp
  | .plus r => r.numSubexp
  | .capture i r => max i r.numSubexp
  | _ => 0

/-- A literal string as a regular expression. -/
def Regex.str : List Char → Regex
  | [] => .empty
  | c :: cs => .concat (.lit c) (Regex.str cs)

/-- The text of group `i` in a finished thread; a group that took no part in
the match gives the empty string. -/
def capText (caps : List (Nat × List Char)) (i : Nat) : String :=
  match caps.find? (fun e => e.1 == i) with
  | some e => String.mk e.2
  | none => ""

/-- The slice that `FindStringSubmatch` returns for a match that started at
`start` of `text` and ended in thread `s`: the whole match, then each group. -/
def submatches (re : Regex) (start : Nat) (text : List Char) (s : MState) : List String :=
  String.mk (text.take (s.pos - start)) ::
    (List.range re.numSubexp).map (fun i => capText s.caps (i + 1))

/-- The match that starts exactly at `start`, if there is one: the first
thread in priority order. -/
def matchAt (re : Regex) (start : Nat) (text : List Char) : Option (List String) :=
  ((re.run { pos := start, rest := text, caps := [] }).head?).map (submatches re start text)

/-- Search for the leftmost match: try the start positions from left to
right, the end of the text included, and take the first that has a match. -/
def searchFrom (re : Regex) : Nat → List Char → Option (List String)
  | start, [] => matchAt re start []
  | start, c :: tl =>
    match matchAt re start (c :: tl) with
    | some m => some m
    | none => searchFrom re (start + 1) tl

/-- Model of `(*Regexp).FindStringSubmatch`; `none` is the nil slice. -/
def Regex.FindStringSubmatch (re : Regex) (s : String) : Option (List String) :=
  searchFrom re 0 s.data

/-! ## The program: title validation -/

/-- The character class `[a-zA-Z0-9]` of `validPath`. -/
def alnumRanges : List (Char × Char) := [('a', 'z'), ('A', 'Z'), ('0', '9')]

/-- The alternation `edit|save|view` inside the first group of `validPath`. -/
def verbAlternatives : Regex :=
  .alternate (Regex.str "edit".data)
    (.alternate (Regex.str "save".data) (Regex.str "view".data))

/-- The pattern `^/(edit|save|view)/([a-zA-Z0-9]+)$` of `validPath`, as the
syntax tree `regexp.MustCompile` builds for it. -/
def validPath : Regex :=
  .concat .beginText
    (.concat (.lit '/')
      (.concat (.capture 1 verbAlternatives)
        (.concat (.lit '/')
          (.concat (.capture 2 (.plus (.charClass alnumRanges))) .endText))))

/-! ## `path`, `path/filepath`: lexical path handling on Unix -/

/-- Split a path at every `/`; `a//b` has the empty element in the middle. -/
def splitSlash : List Char → List (List Char)
  | [] => [[]]
  | c :: cs =>
    if c = '/' then [] :: splitSlash cs
    else
      match splitSlash cs with
      | [] => [[c]]
      | h :: t => (c :: h) :: t

/-- One element of the path seen by `Clean`, with the elements kept so far
(last first).  Empty and `.` elements are dropped; `..` removes the last kept
element, is dropped at the root, and is kept at the start of a path that is
not rooted; any other element is kept. -/
def cleanStep (rooted : Bool) (kept : List (List Char)) (elem : List Char) : List (List Char) :=
  if elem = [] ∨ elem = ['.'] then kept
  else if elem = ['.', '.'] then
    match kept with
    | [] => if rooted then [] else [elem]
    | top :: below => if top = ['.', '.'] then elem :: kept else below
  else elem :: kept

/-- The elements `Clean` keeps of a path, last first. -/
def keptOf (rooted : Bool) (cs : List Char) : List (List Char) :=
  (splitSlash cs).foldl (cleanStep rooted) []

/-- The text `Clean` makes of the kept elements: a slash in front when the
path is rooted, one slash between elements, and `.` for a path that is not
rooted and keeps nothing. -/
def renderKept (rooted : Bool) (kept : List (List Char)) : String :=
  if rooted then String.mk ('/' :: List.intercalate ['/'] kept.reverse)
  else if List.intercalate ['/'] kept.reverse = [] then "."
  else String.mk (List.intercalate ['/'] kept.reverse)

/-- Model of `path.Clean` and, on Unix, `filepath.Clean`: the shortest path
equivalent to `path` by lexical processing, following the library's rules
(one separator between elements, no `.` element, an inner `..` cancels the
element before it, `..` at the root is dropped, the empty result is `.`). -/
def Clean (path : String) : String :=
  if path = "" then "."
  else
    let rooted := path.data.head? == some '/'
    renderKept rooted (keptOf rooted path.data)

/-- Model of `strings.Join(elems, "/")`. -/
def joinSlash : List String → String
  | [] => ""
  | [e] => e
  | e :: es => e ++ "/" ++ joinSlash es

/-- Model of `filepath.Join` on Unix: the leading empty elements are ignored,
the others are joined with `/` and the result is cleaned; no element at all
gives the empty string. -/
def Join : List String → String
  | [] => ""
  | e :: es => if e = "" then Join es else Clean (joinSlash (e :: es))

/-- What is before the last `/` of a path, the `/` included. -/
def dirPart (path : List Char) : List Char :=
  (path.reverse.dropWhile (fun c => c != '/')).reverse

/-- Model of `filepath.Dir` on Unix. -/
def Dir (path : String) : String :=
  Clean (String.mk (dirPart path.data))

/-! ## The file system and `io/ioutil` -/

/-- What a path names: a regular file with its bytes and the two permission
bits the process has on it, or a directory that may or may not be written. -/
inductive Node where
  | file (data : String) (readable writable : Bool) : Node
  | dir (writable : Bool) : Node
deriving DecidableEq, Repr

/-- The file system: what each path names, if anything. -/
abbrev FS := String → Option Node

/-- The file system with `path` naming `node`. -/
def FS.update (fs : FS) (path : String) (node : Node) : FS :=
  fun q => if q = path then some node else fs q

/-- Model of `ioutil.ReadFile`: the bytes of a readable regular file, and an
error for a missing entry (also when what should be its directory is a
regular file), a directory, or a file without read permission. -/
def ReadFile (fs : FS) (filename : String) : Except String String :=
  match fs filename with
  | none =>
    match fs (Dir filename) with
    | some (.file _ _ _) => .error ("open " ++ filename ++ ": not a directory")
    | _ => .error ("open " ++ filename ++ ": no such file or directory")
  | some (.dir _) => .error ("read " ++ filename ++ ": is a directory")
  | some (.file data readable _) =>
    if readable then .ok data else .error ("open " ++ filename ++ ": permission denied")

/-- Model of `ioutil.WriteFile(filename, data, 0600)`: an existing file is
truncated and rewritten when the process may write it and keeps its
permissions; a missing one is created, readable and writable by the owner,
when its directory exists and may be written.  A failed call leaves the file
system as it was. -/
def WriteFile (fs : FS) (filename : String) (data : String) : Option String × FS :=
  match fs filename with
  | some (.dir _) => (some ("open " ++ filename ++ ": is a directory"), fs)
  | some (.file _ readable writable) =>
    if writable then (none, fs.update filename (.file data readable writable))
    else (some ("open " ++ filename ++ ": permission denied"), fs)
  | none =>
    match fs (Dir filename) with
    | some (.dir true) => (none, fs.update filename (.file data true true))
    | some (.dir false) => (some ("open " ++ filename ++ ": permission denied"), fs)
    | some (.file _ _ _) => (some ("open " ++ filename ++ ": not a directory"), fs)
    | none => (some ("open " ++ filename ++ ": no such file or directory"), fs)

/-! ## `net/http`: the response writer -/

/-- The state of an `http.ResponseWriter`: the header map the handler edits,
whether the status line has gone out, and if so with which code and which
of the handler's headers, and the body bytes written so far.  The headers
the server adds on its own (date, length, a sniffed content type) are not
part of it. -/
structure ResponseWriter where
  header : List (String × String)
  wroteHeader : Bool
  status : Nat
  sent : List (String × String)
  body : String
deriving DecidableEq, Repr

/-- The writer the server hands to a handler at the start of a request. -/
def ResponseWriter.fresh : ResponseWriter :=
  { header := [], wroteHeader := false, status := 0, sent := [], body := "" }

/-- Model of `Header().Set(key, value)`. -/
def ResponseWriter.Set (w : ResponseWriter) (key value : String) : ResponseWriter :=
  { w with header := (key, value) :: w.header.filter (fun e => e.1 != key) }

/-- Model of `Header().Get(key)` on the headers that went out. -/
def ResponseWriter.sentHeader (w : ResponseWriter) (key : String) : Option String :=
  (w.sent.find? (fun e => e.1 == key)).map (fun e => e.2)

/-- Model of `WriteHeader(code)`: the first call fixes the status and the
headers of the response; a later call changes nothing. -/
def ResponseWriter.WriteHeader (w : ResponseWriter) (code : Nat) : ResponseWriter :=
  if w.wroteHeader then w
  else { w with wroteHeader := true, status := code, sent := w.header }

/-- Model of `Write(data)`: sends the status 200 first when no status has gone
out, then appends to the body. -/
def ResponseWriter.Write (w : ResponseWriter) (data : String) : ResponseWriter :=
  let w1 := if w.wroteHeader then w else w.WriteHeader 200
  { w1 with body := w1.body ++ data }

/-- The status the client receives: the one written, or 200 when the handler
returned without writing any. -/
def ResponseWriter.statusCode (w : ResponseWriter) : Nat :=
  if w.wroteHeader then w.status else 200

/-- Model of `http.Error`: plain-text headers, the status, then the message
and a newline. -/
def Error (w : ResponseWriter) (error : String) (code : Nat) : ResponseWriter :=
  let w1 := w.Set "Content-Type" "text/plain; charset=utf-8"
  let w2 := w1.Set "X-Content-Type-Options" "nosniff"
  (w2.WriteHeader code).Write (error ++ "\n")

def StatusFound : Nat := 302
def StatusBadRequest : Nat := 400
def StatusNotFound : Nat := 404
def StatusInternalServerError : Nat := 500

/-- Model of `http.StatusText`, cut to the redirect codes and the codes this
program sends; any other code has no text here. -/
def StatusText (code : Nat) : String :=
  if code = 301 then "Moved Permanently"
  else if code = 302 then "Found"
  else if code = 303 then "See Other"
  else if code = 307 then "Temporary Redirect"
  else if code = 308 then "Permanent Redirect"
  else if code = 400 then "Bad Request"
  else if code = 404 then "Not Found"
  else if code = 500 then "Internal Server Error"
  else ""

/-! ## `net/url` and `http.Redirect` -/

/-- Split at the first `sep`: what is before it, and what is after it when
there is one (`strings.Cut`). -/
def cutAt (sep : Char) : List Char → List Char × Option (List Char)
  | [] => ([], none)
  | c :: cs =>
    if c = sep then ([], some cs)
    else ((c :: (cutAt sep cs).1), (cutAt sep cs).2)

/-- A hexadecimal digit (`ishex`). -/
def ishex (c : Char) : Bool :=
  c.isDigit || ('a' ≤ c && c ≤ 'f') || ('A' ≤ c && c ≤ 'F')

/-- Every `%` is followed by two hexadecimal digits; otherwise `url.Parse`
fails to unescape the part. -/
def validEscapes : List Char → Bool
  | [] => true
  | c :: cs =>
    if c = '%' then
      (match cs with
        | a :: b :: _ => ishex a && ishex b
        | _ => false) && validEscapes cs
    else validEscapes cs

/-- The scheme scan of `url.Parse` (`getScheme`): `none` is the error of a
colon in front, `some true` a scheme, `some false` no scheme. -/
def schemeScan (first : Bool) : List Char → Option Bool
  | [] => some false
  | c :: cs =>
    if c.isAlpha then schemeScan false cs
    else if c.isDigit || c == '+' || c == '-' || c == '.' then
      if first then some false else schemeScan false cs
    else if c == ':' then
      if first then none else some true
    else some false

/-- Characters `url.Parse` accepts in the user information of an authority. -/
def validUserinfo (s : List Char) : Bool :=
  s.all (fun c => c.isAlphanum || "-._:~!$&'()*+,;=%@".data.contains c)

/-- An authority with no host: empty, or user information followed by `@`. -/
def authorityHasNoHost (authority : List Char) : Bool :=
  match authority.reverse with
  | [] => true
  | '@' :: rev => validUserinfo rev.reverse && validEscapes rev.reverse
  | _ :: _ => false

/-- The test `err == nil && u.Scheme == "" && u.Host == ""` that
`http.Redirect` makes on `url.Parse(url)`: the text parses and is a reference
without scheme and host. -/
def isLocalReference (url : String) : Bool :=
  if url.data.any (fun c => c.toNat < 32 || c.toNat == 127) then false
  else
    let u := (cutAt '#' url.data).1
    let frag := ((cutAt '#' url.data).2).getD []
    if u = ['*'] then validEscapes frag
    else
      match schemeScan true u with
      | none => false
      | some true => false
      | some false =>
        let rest := (cutAt '?' u).1
        if rest.head? != some '/' then
          !((cutAt '/' rest).1).contains ':' && validEscapes rest && validEscapes frag
        else if List.isPrefixOf ['/', '/'] rest && not (List.isPrefixOf ['/', '/', '/'] rest) then
          authorityHasNoHost (cutAt '/' (rest.drop 2)).1 &&
            validEscapes ((rest.drop 2).drop (cutAt '/' (rest.drop 2)).1.length) &&
            validEscapes frag
        else validEscapes rest && validEscapes frag

/-- One hexadecimal digit, lower case. -/
def hexDigit (n : Nat) : Char :=
  if n < 10 then Char.ofNat (48 + n) else Char.ofNat (87 + n)

/-- Model of `hexEscapeNonASCII`: every byte of a character outside ASCII is
written `%xx`. -/
def hexEscapeNonASCII (s : String) : String :=
  String.mk (s.data.flatMap (fun c =>
    if c.toNat < 128 then [c]
    else (String.utf8EncodeChar c).flatMap (fun b =>
      ['%', hexDigit (b.toNat / 16), hexDigit (b.toNat % 16)])))

/-- Model of `htmlEscape` of `net/http`. -/
def htmlEscape (s : String) : String :=
  String.mk (s.data.flatMap (fun c =>
    if c = '&' then "&amp;".data
    else if c = '<' then "&lt;".data
    else if c = '>' then "&gt;".data
    else if c = '"' then "&#34;".data
    else if c = '\'' then "&#39;".data
    else [c]))

/-- The part of `*http.Request` the program and the server look at.  `Path`
is `URL.Path`, the decoded path; `EscapedPath` is the value of
`URL.EscapedPath()`, the encoding of it that the request used when that is a
valid one, and the default encoding otherwise. -/
structure Request where
  Method : String
  ProtoMajor : Nat
  ProtoMinor : Nat
  RequestURI : String
  Path : String
  EscapedPath : String
  RawQuery : String
  Form : List (String × String)

/-- Model of `Request.FormValue`: the first value of the field, or the empty
string. -/
def Request.FormValue (r : Request) (key : String) : String :=
  match r.Form.find? (fun e => e.1 == key) with
  | some e => e.2
  | none => ""

/-- The target that `http.Redirect` puts in `Location`: a reference without
scheme and host is made absolute against the request path and cleaned, with
its query and a trailing slash kept; anything else is left as it is. -/
def redirectTarget (r : Request) (url : String) : String :=
  if isLocalReference url then
    let oldpath := if r.Path = "" then "/" else r.Path
    let url1 := if url.data.head? != some '/' then String.mk (dirPart oldpath.data) ++ url else url
    let path := String.mk (cutAt '?' url1.data).1
    let query :=
      match (cutAt '?' url1.data).2 with
      | some q => String.mk ('?' :: q)
      | none => ""
    let trailing := path.data.getLast? == some '/'
    let cleaned := Clean path
    let cleaned1 :=
      if trailing && cleaned.data.getLast? != some '/' then cleaned ++ "/" else cleaned
    cleaned1 ++ query
  else url

/-- Model of `http.Redirect`: the `Location` header, for GET and HEAD a
content type unless one is set, the status, and for GET a short HTML body. -/
def Redirect (w : ResponseWriter) (r : Request) (url : String) (code : Nat) : ResponseWriter :=
  let target := redirectTarget r url
  let hadCT := w.header.any (fun e => e.1 == "Content-Type")
  let w1 := w.Set "Location" (hexEscapeNonASCII target)
  let w2 :=
    if !hadCT && (r.Method == "GET" || r.Method == "HEAD") then
      w1.Set "Content-Type" "text/html; charset=utf-8"
    else w1
  let w3 := w2.WriteHeader code
  if !hadCT && r.Method == "GET" then
    w3.Write ("<a href=\"" ++ htmlEscape target ++ "\">" ++ StatusText code ++ "</a>.\n" ++ "\n")
  else w3

/-- Model of `http.NotFound`. -/
def NotFound (w : ResponseWriter) (_r : Request) : ResponseWriter :=
  Error w "404 page not found" StatusNotFound

/-! ## The program -/

/-- Source: `getTitle`.  The title is `match[2]`; a nil match, or one with
fewer than three entries, is the error `invalid page title`. -/
def getTitle (request : Request) : Except String String :=
  match validPath.FindStringSubmatch request.Path with
  | none => .error "invalid page title"
  | some m => if m.length < 3 then .error "invalid page title" else .ok (m.getD 2 "")



/-- Source: `type Page`. -/
structure Page where
  Title : String
  Body : String
deriving DecidableEq, Repr

def viewPath : String := "/view/"
def editPath : String := "/edit/"
def savePath : String := "/save/"
def contentPath : String := "/content/"
def templatePath : String := "/view/"

/-- What the process reads but a request does not change: the answer of
`os.Getwd`, and the parsed template set `templates`.  Executing a template
with a page gives the chunks it writes, in order, and the error it ends
with, if any; the template files are not part of the sources. -/
structure Env where
  Getwd : Except String String
  templates : String → Page → List String × Option String

/-- What a handler sees and changes: the response writer and the file
system. -/
structure World where
  responseWriter : ResponseWriter
  fs : FS

/-- A handler as `net/http` calls it. -/
abbrev HandlerFunc := Request → World → World

/-- A handler that also takes the title, the argument of `makeHandler`. -/
abbrev TitleHandler := Request → String → World → World

/-- Source: `getFilepath`. -/
def getFilepath (env : Env) (filename path : String) : Except String String :=
  match env.Getwd with
  | .error err => .error err
  | .ok workingDirectory => .ok (Join [workingDirectory, path, filename])

/-- Source: `(*Page).save`; `none` is the nil error. -/
def Page.save (env : Env) (page : Page) (fs : FS) : Option String × FS :=
  match getFilepath env (page.Title ++ ".txt") contentPath with
  | .error err => (some err, fs)
  | .ok path => WriteFile fs path page.Body

/-- Source: `loadPage`. -/
def loadPage (env : Env) (fs : FS) (title : String) : Except String Page :=
  match getFilepath env (title ++ ".txt") contentPath with
  | .error filenameError => .error filenameError
  | .ok filename =>
    match ReadFile fs filename with
    | .error err => .error err
    | .ok body => .ok { Title := title, Body := body }

/-- Source: `renderTemplate`.  `ExecuteTemplate` writes its chunks to the
response; when it ends with an error, `http.Error` follows. -/
def renderTemplate (env : Env) (responseWriter : ResponseWriter) (templateFileName : String)
    (page : Page) : ResponseWriter :=
  let result := env.templates (templateFileName ++ ".html") page
  let written := result.1.foldl (fun w chunk => w.Write chunk) responseWriter
  match result.2 with
  | some err => Error written err StatusInternalServerError
  | none => written

/-- Source: `makeHandler`. -/
def makeHandler (handler : TitleHandler) : HandlerFunc :=
  fun request world =>
    match getTitle request with
    | .error _ => { world with responseWriter := NotFound world.responseWriter request }
    | .ok title => handler request title world

/-- Source: `viewHandler`. -/
def viewHandler (env : Env) : TitleHandler :=
  fun request title world =>
    match loadPage env world.fs title with
    | .error _ =>
      { world with
        responseWriter := Redirect world.responseWriter request (editPath ++ title) StatusFound }
    | .ok page =>
      { world with responseWriter := renderTemplate env world.responseWriter "view" page }

/-- Source: `editHandler`. -/
def editHandler (env : Env) : TitleHandler :=
  fun _request title world =>
    let page :=
      match loadPage env world.fs title with
      | .error _ => { Title := title, Body := "" }
      | .ok page => page
    { world with responseWriter := renderTemplate env world.responseWriter "edit" page }

/-- Source: `saveHandler`. -/
def saveHandler (env : Env) : TitleHandler :=
  fun request title world =>
    let body := request.FormValue "body"
    let page : Page := { Title := title, Body := body }
    match page.save env world.fs with
    | (some err, fs) =>
      { responseWriter := Error world.responseWriter err StatusInternalServerError, fs := fs }
    | (none, fs) =>
      { responseWriter := Redirect world.responseWriter request (viewPath ++ page.Title) StatusFound,
        fs := fs }

/-! ## `net/http`: the request multiplexer and the server -/

def StatusTemporaryRedirect : Nat := 307

/-- A registration of the multiplexer. -/
structure MuxEntry where
  pattern : String
  h : HandlerFunc

/-- Model of `http.ServeMux` for patterns that name neither a method nor a
host and have no wildcard, as those of `main`: the registrations in order.
Host and method of a request take no part in the matching of such patterns. -/
structure ServeMux where
  entries : List MuxEntry

/-- Model of `ServeMux.HandleFunc` for a new pattern. -/
def ServeMux.HandleFunc (mux : ServeMux) (pattern : String) (handler : HandlerFunc) : ServeMux :=
  { entries := mux.entries ++ [{ pattern := pattern, h := handler }] }

/-- Model of `http.NotFoundHandler`. -/
def NotFoundHandler : HandlerFunc :=
  fun request world => { world with responseWriter := NotFound world.responseWriter request }

/-- Model of `http.RedirectHandler`. -/
def RedirectHandler (url : String) (code : Nat) : HandlerFunc :=
  fun request world =>
    { world with responseWriter := Redirect world.responseWriter request url code }

/-- Model of `cleanPath` of `net/http`: the canonical form of a request path,
with a leading slash and a trailing slash kept. -/
def cleanPath (p : String) : String :=
  if p = "" then "/"
  else
    let p1 := if p.data.head? != some '/' then "/" ++ p else p
    let np := Clean p1
    if p1.data.getLast? == some '/' && np != "/" then np ++ "/" else np

/-- The value of a hexadecimal digit. -/
def hexValue (c : Char) : Nat :=
  if c.isDigit then c.toNat - 48
  else if 97 ≤ c.toNat then c.toNat - 87
  else c.toNat - 55

/-- The bytes of a text with its `%XX` escapes decoded. -/
def unescapeBytes : List Char → List Nat
  | [] => []
  | c :: cs =>
    if c = '%' then
      match cs with
      | a :: b :: rest => (hexValue a * 16 + hexValue b) :: unescapeBytes rest
      | _ => []
    else (String.utf8EncodeChar c).map (fun b => b.toNat) ++ unescapeBytes cs

/-- A continuation byte of UTF-8. -/
def isCont (b : Nat) : Bool := 128 ≤ b && b < 192

/-- The character with code `n` when `lo ≤ n` and `n` is a scalar value, and
the replacement character otherwise. -/
def scalarFrom (lo n : Nat) : Char :=
  if lo ≤ n ∧ n.isValidChar then Char.ofNat n else Char.ofNat 65533

/-- The first character of a byte sequence read as UTF-8, and the number of
bytes it takes; a byte that starts no valid sequence is read, alone, as the
replacement character. -/
def decodeRune (bs : List Nat) : Char × Nat :=
  match bs with
  | [] => (Char.ofNat 65533, 1)
  | b0 :: bs1 =>
    let b1 := bs1.getD 0 0
    let b2 := bs1.getD 1 0
    let b3 := bs1.getD 2 0
    if b0 < 128 then (Char.ofNat b0, 1)
    else if 194 ≤ b0 && b0 < 224 && isCont b1 then
      (scalarFrom 128 ((b0 - 192) * 64 + (b1 - 128)), 2)
    else if 224 ≤ b0 && b0 < 240 && isCont b1 && isCont b2 then
      (scalarFrom 2048 ((b0 - 224) * 4096 + (b1 - 128) * 64 + (b2 - 128)), 3)
    else if 240 ≤ b0 && b0 < 248 && isCont b1 && isCont b2 && isCont b3 then
      (scalarFrom 65536
        ((b0 - 240) * 262144 + (b1 - 128) * 4096 + (b2 - 128) * 64 + (b3 - 128)), 4)
    else (Char.ofNat 65533, 1)

/-- The characters of a byte sequence read as UTF-8, with at most `fuel`
characters; every character takes a byte at least, so the length of the
sequence is fuel enough. -/
def decodeRunes : Nat → List Nat → List Char
  | 0, _ => []
  | _ + 1, [] => []
  | fuel + 1, b :: bs =>
    (decodeRune (b :: bs)).1 :: decodeRunes fuel ((b :: bs).drop (decodeRune (b :: bs)).2)

/-- The characters of a byte sequence read as UTF-8. -/
def decodeUTF8 (bs : List Nat) : List Char :=
  decodeRunes bs.length bs

/-- Model of `pathUnescape` of `net/http`: the text with its escapes decoded,
or the text itself when an escape is malformed. -/
def pathUnescape (s : List Char) : List Char :=
  if validEscapes s then decodeUTF8 (unescapeBytes s) else s

/-- The elements of a path as the routing tree reads them (`firstSegment`,
repeated): the first character is dropped, each element is taken to the next
slash and unescaped, and a trailing slash is the element `/`. -/
def pathSegments (path : String) : List String :=
  if path = "" then []
  else
    let parts := splitSlash (path.data.drop 1)
    parts.dropLast.map (fun p => String.mk (pathUnescape p)) ++
      [if parts.getLast? == some [] then "/"
        else String.mk (pathUnescape (parts.getLast?.getD []))]

/-- A pattern as the multiplexer parses it: its literal elements, whether it
ends in a slash and so matches a whole subtree, and its text. -/
structure Candidate where
  segs : List String
  multi : Bool
  pattern : String

/-- Parse of a pattern made of literal elements. -/
def parsePattern (pattern : String) : Candidate :=
  let parts := splitSlash (pattern.data.drop 1)
  { segs := parts.dropLast.map String.mk ++
      (if parts.getLast? == some [] then [] else [String.mk (parts.getLast?.getD [])]),
    multi := parts.getLast? == some [],
    pattern := pattern }

/-- Model of `routingNode.matchPath` on the patterns that are still candidates
at a node: with no element left, the pattern that ends here; otherwise the
match in the child for the literal element, and, when there is none, the
pattern whose subtree starts here. -/
def matchSegs : List Candidate → List String → Option String
  | cands, [] => (cands.find? (fun c => c.segs.isEmpty && !c.multi)).map (fun c => c.pattern)
  | cands, seg :: rest =>
    match matchSegs
        (cands.filterMap (fun c =>
          match c.segs with
          | s :: more => if s = seg then some { c with segs := more } else none
          | [] => none))
        rest with
    | some p => some p
    | none => (cands.find? (fun c => c.segs.isEmpty && c.multi)).map (fun c => c.pattern)

/-- Model of the routing tree's `match`: the pattern that matches the path,
the most specific one when several do. -/
def ServeMux.match (mux : ServeMux) (path : String) : Option String :=
  matchSegs (mux.entries.map (fun e => parsePattern e.pattern)) (pathSegments path)

/-- Model of `exactMatch`: the matched pattern matches the path with nothing
left for its subtree. -/
def exactMatch (n : Option String) (path : String) : Bool :=
  match n with
  | none => false
  | some p =>
    if !(parsePattern p).multi then true
    else if path != "" && path.data.getLast? != some '/' then false
    else (parsePattern p).segs.length + 1 == path.data.count '/'

/-- Model of `ServeMux.matchOrRedirect`: the match for the path, and, when the
path has no final slash and is matched exactly only with one added, the path
and query to redirect to.  `u` is the URL of the request, absent when no
redirect is wanted. -/
def ServeMux.matchOrRedirect (mux : ServeMux) (path : String) (u : Option Request) :
    Option String × Option (String × String) :=
  match u with
  | none => (mux.match path, none)
  | some r =>
    if !exactMatch (mux.match path) path && path.data.getLast? != some '/' &&
        exactMatch (mux.match (path ++ "/")) (path ++ "/") then
      (none, some (cleanPath r.Path ++ "/", r.RawQuery))
    else (mux.match path, none)

/-- The handler registered for a matched pattern; `NotFoundHandler` when
nothing matched. -/
def ServeMux.handlerOf (mux : ServeMux) (n : Option String) : HandlerFunc :=
  match n with
  | none => NotFoundHandler
  | some p =>
    match mux.entries.find? (fun e => e.pattern == p) with
    | some e => e.h
    | none => NotFoundHandler

/-- One hexadecimal digit, upper case. -/
def upperHexDigit (n : Nat) : Char :=
  if n < 10 then Char.ofNat (48 + n) else Char.ofNat (55 + n)

/-- Model of `URL.EscapedPath` for a path set directly: only `?` and the bytes
outside the unreserved and reserved characters are written `%XX`. -/
def escapePath (path : String) : String :=
  if path = "*" then "*"
  else
    String.mk (path.data.flatMap (fun c =>
      if c.isAlphanum || "-_.~$&+,/:;=@".data.contains c then [c]
      else (String.utf8EncodeChar c).flatMap (fun b =>
        ['%', upperHexDigit (b.toNat / 16), upperHexDigit (b.toNat % 16)])))

/-- Model of `URL.String` for a URL made of a path and a raw query. -/
def urlString (path rawQuery : String) : String :=
  let escaped := escapePath path
  let dot := if ((cutAt '/' escaped.data).1).contains ':' then "./" else ""
  let query := if rawQuery = "" then "" else "?" ++ rawQuery
  dot ++ escaped ++ query

/-- Model of `ServeMux.findHandler`: the handler for a request.  The escaped
path is matched, for CONNECT as it is and otherwise in canonical form.  A
subtree named without its final slash, and, except for CONNECT, a path that
is not in canonical form, are answered with a temporary redirect. -/
def ServeMux.findHandler (mux : ServeMux) (r : Request) : HandlerFunc :=
  if r.Method = "CONNECT" then
    match (mux.matchOrRedirect r.EscapedPath (some r)).2 with
    | some u => RedirectHandler (urlString u.1 u.2) StatusTemporaryRedirect
    | none => mux.handlerOf (mux.matchOrRedirect r.EscapedPath none).1
  else
    let path := cleanPath r.EscapedPath
    match mux.matchOrRedirect path (some r) with
    | (_, some u) => RedirectHandler (urlString u.1 u.2) StatusTemporaryRedirect
    | (n, none) =>
      if path != r.EscapedPath then
        RedirectHandler (urlString path r.RawQuery) StatusTemporaryRedirect
      else mux.handlerOf n

/-- Model of `ServeMux.ServeHTTP`: the request target `*` is a bad request,
any other request goes to its handler. -/
def ServeMux.ServeHTTP (mux : ServeMux) : HandlerFunc :=
  fun r world =>
    if r.RequestURI = "*" then
      let w := world.responseWriter
      let w1 :=
        if r.ProtoMajor > 1 || (r.ProtoMajor == 1 && r.ProtoMinor >= 1) then
          w.Set "Connection" "close"
        else w
      { world with responseWriter := w1.WriteHeader StatusBadRequest }
    else mux.findHandler r r world

/-- Model of `globalOptionsHandler`: an empty response. -/
def globalOptionsHandler : HandlerFunc :=
  fun _r world => { world with responseWriter := world.responseWriter.Set "Content-Length" "0" }

/-- Model of `serverHandler.ServeHTTP` for a server with the default
multiplexer: the server answers `OPTIONS *` itself and hands every other
request to the multiplexer. -/
def serverHandler (mux : ServeMux) : HandlerFunc :=
  fun r world =>
    if r.RequestURI = "*" ∧ r.Method = "OPTIONS" then globalOptionsHandler r world
    else mux.ServeHTTP r world

/-- The registrations of `main` on the default multiplexer, for any three
title handlers. -/
def routes (view edit save : TitleHandler) : ServeMux :=
  ((((ServeMux.mk []).HandleFunc viewPath (makeHandler view)).HandleFunc editPath
    (makeHandler edit)).HandleFunc savePath (makeHandler save)).HandleFunc "/" NotFoundHandler

/-- Source: `main`, as the function from a request and the file system to the
response and the file system after it: `http.ListenAndServe` with a nil
handler serves every request through the default multiplexer, with the
registrations of `main`, on a fresh response writer. -/
def main (env : Env) (request : Request) (fs : FS) : World :=
  serverHandler (routes (viewHandler env) (editHandler env) (saveHandler env)) request
    { responseWriter := ResponseWriter.fresh, fs := fs }

/-! ## Specification side -/

/-- A title as the specification wants it: a non-empty string of characters
of `[a-zA-Z0-9]` (`Char.isAlphanum` is that ASCII class). -/
def ValidTitle (t : String) : Prop :=
  t ≠ "" ∧ ∀ c ∈ t.data, c.isAlphanum = true

instance ValidTitle.decidable (t : String) : Decidable (ValidTitle t) :=
  decidable_of_iff (t ≠ "" ∧ t.data.all Char.isAlphanum = true) (by simp [ValidTitle])

/-- The path `p`, as a whole, is `/verb/t` with `verb` one of `edit`, `save`,
`view` and `t` a valid title. -/
def IsTitlePath (p t : String) : Prop :=
  ∃ verb, verb ∈ ["edit", "save", "view"] ∧ p = "/" ++ verb ++ "/" ++ t ∧ ValidTitle t

/-- A character of a path made of slashes, letters and digits. -/
def PlainChar (c : Char) : Prop := c = '/' ∨ c.isAlphanum = true

/-- An element of a path that `Clean` keeps: not empty, not `.`, not `..`. -/
def IsName (e : List Char) : Prop := e ≠ [] ∧ e ≠ ['.'] ∧ e ≠ ['.', '.']

deriving instance DecidableEq for Except

/-! ## Concrete instances for the witnesses and counterexamples -/

/-- A request for `path`, sent in its default encoding, with the form field
`body` set to `body`. -/
def sampleRequest (method path body : String) : Request :=
  { Method := method, ProtoMajor := 1, ProtoMinor := 1, RequestURI := path, Path := path,
    EscapedPath := escapePath path, RawQuery := "", Form := [("body", body)] }

/-- A process started in `/srv/wiki` whose templates write the template name,
the title and the body and never fail. -/
def sampleEnv : Env :=
  { Getwd := .ok "/srv/wiki",
    templates := fun name page => ([name, page.Title, page.Body], none) }

/-- The same process with templates whose execution fails at once, as a
template does that names a field `Page` does not have. -/
def failingTemplatesEnv : Env :=
  { Getwd := .ok "/srv/wiki",
    templates := fun name _ => ([], some ("template: " ++ name ++ ": no such field")) }

/-- A process that cannot tell its working directory. -/
def lostEnv : Env :=
  { Getwd := .error "getwd: no such file or directory",
    templates := fun name page => ([name, page.Title, page.Body], none) }

/-- A store with the content directory and the page `Home`. -/
def sampleStore : FS := fun q =>
  if q = "/srv/wiki/content" then some (.dir true)
  else if q = "/srv/wiki/content/Home.txt" then some (.file "welcome" true true)
  else none

/-- A store in which the entry of `Home` exists and may be written, but not
read, by the process (a file of mode 0200). -/
def writeOnlyStore : FS := fun q =>
  if q = "/srv/wiki/content" then some (.dir true)
  else if q = "/srv/wiki/content/Home.txt" then some (.file "welcome" false true)
  else none

/-! # Theorems -/

/-! ## Facts about the matcher -/

theorem mem_stepChar (p : Char → Bool) (s st : MState) :
    st ∈ stepChar p s ↔
      ∃ d tl, s.rest = d :: tl ∧ p d = true ∧ st = { s with pos := s.pos + 1, rest := tl } := by
  unfold stepChar
  cases h : s.rest with
  | nil => simp
  | cons d tl =>
    by_cases hp : p d = true
    · simp only [hp, if_true, List.mem_singleton, List.cons.injEq]
      constructor
      · intro h; exact ⟨d, tl, ⟨rfl, rfl⟩, hp, h⟩
      · rintro ⟨d2, tl2, ⟨rfl, rfl⟩, -, h⟩; exact h
    · simp only [hp, if_false, List.not_mem_nil, false_iff, Bool.false_eq_true]
      rintro ⟨d2, tl2, ⟨rfl, rfl⟩, h2, -⟩
      exact hp h2

theorem mem_run_str (v : List Char) (s st : MState) :
    st ∈ (Regex.str v).run s ↔
      ∃ r, s.rest = v ++ r ∧ st = { s with pos := s.pos + v.length, rest := r } := by
  induction v generalizing s st with
  | nil =>
    cases s
    simp [Regex.str, Regex.run, eq_comm]
  | cons c cs ih =>
    simp only [Regex.str, Regex.run, List.mem_flatMap, mem_stepChar, ih]
    constructor
    · rintro ⟨s1, ⟨d, tl, h1, h2, rfl⟩, r, h3, rfl⟩
      simp at h2 h3
      subst h2 h3
      exact ⟨r, by simpa using h1, by simp; omega⟩
    · rintro ⟨r, h1, rfl⟩
      refine ⟨{ s with pos := s.pos + 1, rest := cs ++ r }, ⟨c, cs ++ r, by simpa using h1, by simp, rfl⟩,
        r, rfl, by simp; omega⟩

theorem mem_plusLoop_class (R : List (Char × Char)) (n : Nat) (s st : MState)
    (h : s.rest.length ≤ n) :
    st ∈ plusLoop (stepChar (inClass R)) n s ↔
      ∃ a b, s.rest = a ++ b ∧ a ≠ [] ∧ (∀ c ∈ a, inClass R c = true) ∧
        st = { s with pos := s.pos + a.length, rest := b } := by
  induction n generalizing s st with
  | zero =>
    have hnil : s.rest = [] := List.length_eq_zero.mp (Nat.le_zero.mp h)
    simp only [plusLoop, mem_stepChar, hnil]
    constructor
    · rintro ⟨d, tl, h1, -⟩; cases h1
    · rintro ⟨a, b, h1, h2, -⟩
      cases a with
      | nil => exact absurd rfl h2
      | cons x xs => cases h1
  | succ n ih =>
    simp only [plusLoop, List.mem_flatMap, mem_stepChar, List.mem_append,
      List.mem_singleton]
    constructor
    · rintro ⟨s1, ⟨d, tl, h1, h2, rfl⟩, h3⟩
      have hlen : tl.length ≤ n := by
        rw [h1] at h; simpa using h
      rcases h3 with h3 | h3
      · simp only [Nat.lt_succ_self, if_true] at h3
        obtain ⟨a, b, e1, -, e3, rfl⟩ :=
          (ih { s with pos := s.pos + 1, rest := tl } st hlen).mp h3
        simp only at e1
        refine ⟨d :: a, b, by rw [h1, e1]; rfl, by simp, ?_, ?_⟩
        · intro c hc
          rcases List.mem_cons.mp hc with rfl | hc
          · exact h2
          · exact e3 c hc
        · simp; omega
      · subst h3
        exact ⟨[d], tl, by rw [h1]; rfl, by simp, by simpa using h2, by simp⟩
    · rintro ⟨a, b, h1, h2, h3, rfl⟩
      cases a with
      | nil => exact absurd rfl h2
      | cons d a =>
        have hd : inClass R d = true := h3 d (List.mem_cons_self _ _)
        refine ⟨{ s with pos := s.pos + 1, rest := a ++ b }, ⟨d, a ++ b, by simpa using h1, hd, rfl⟩, ?_⟩
        by_cases ha : a = []
        · subst ha
          right
          simp
        · left
          simp only [Nat.lt_succ_self, if_true]
          have hlen : (a ++ b).length ≤ n := by
            rw [h1] at h; simpa using h
          refine (ih { s with pos := s.pos + 1, rest := a ++ b } _ hlen).mpr
            ⟨a, b, rfl, ha, fun c hc => h3 c (List.mem_cons_of_mem _ hc), ?_⟩
          simp; omega

theorem mem_run_plus_class (R : List (Char × Char)) (s st : MState) :
    st ∈ (Regex.plus (.charClass R)).run s ↔
      ∃ a b, s.rest = a ++ b ∧ a ≠ [] ∧ (∀ c ∈ a, inClass R c = true) ∧
        st = { s with pos := s.pos + a.length, rest := b } :=
  mem_plusLoop_class R s.rest.length s st (Nat.le_refl _)

theorem mem_run_concat (a b : Regex) (s st : MState) :
    st ∈ (Regex.concat a b).run s ↔ ∃ s1, s1 ∈ a.run s ∧ st ∈ b.run s1 := by
  show st ∈ (a.run s).flatMap (fun s' => b.run s') ↔ _
  exact List.mem_flatMap

theorem mem_run_alternate (a b : Regex) (s st : MState) :
    st ∈ (Regex.alternate a b).run s ↔ st ∈ a.run s ∨ st ∈ b.run s := by
  show st ∈ a.run s ++ b.run s ↔ _
  exact List.mem_append

theorem mem_run_capture (i : Nat) (r : Regex) (s st : MState) :
    st ∈ (Regex.capture i r).run s ↔
      ∃ s1, s1 ∈ r.run s ∧
        st = { s1 with caps := (i, s.rest.take (s1.pos - s.pos)) :: s1.caps } := by
  show st ∈ (r.run s).map _ ↔ _
  simp only [List.mem_map, eq_comm]

theorem mem_run_lit (c : Char) (s st : MState) :
    st ∈ (Regex.lit c).run s ↔
      ∃ tl, s.rest = c :: tl ∧ st = { s with pos := s.pos + 1, rest := tl } := by
  show st ∈ stepChar (fun d => d == c) s ↔ _
  rw [mem_stepChar]
  constructor
  · rintro ⟨d, tl, h1, h2, h3⟩
    have : d = c := by simpa using h2
    subst this
    exact ⟨tl, h1, h3⟩
  · rintro ⟨tl, h1, h3⟩
    exact ⟨c, tl, h1, by simp, h3⟩

theorem mem_run_beginText (s st : MState) :
    st ∈ Regex.beginText.run s ↔ s.pos = 0 ∧ st = s := by
  show st ∈ (if s.pos = 0 then [s] else []) ↔ _
  by_cases h : s.pos = 0 <;> simp [h]

theorem mem_run_endText (s st : MState) :
    st ∈ Regex.endText.run s ↔ s.rest = [] ∧ st = s := by
  show st ∈ (if s.rest.isEmpty then [s] else []) ↔ _
  by_cases h : s.rest = [] <;> simp [h]

theorem mem_run_verbs (s st : MState) :
    st ∈ verbAlternatives.run s ↔
      ∃ verb r, (verb = "edit".data ∨ verb = "save".data ∨ verb = "view".data) ∧
        s.rest = verb ++ r ∧ st = { s with pos := s.pos + 4, rest := r } := by
  unfold verbAlternatives
  rw [mem_run_alternate, mem_run_alternate, mem_run_str, mem_run_str, mem_run_str]
  constructor
  · rintro (⟨r, h1, h2⟩ | ⟨r, h1, h2⟩ | ⟨r, h1, h2⟩)
    · exact ⟨_, r, Or.inl rfl, h1, h2⟩
    · exact ⟨_, r, Or.inr (Or.inl rfl), h1, h2⟩
    · exact ⟨_, r, Or.inr (Or.inr rfl), h1, h2⟩
  · rintro ⟨verb, r, (rfl | rfl | rfl), h1, h2⟩
    · exact Or.inl ⟨r, h1, h2⟩
    · exact Or.inr (Or.inl ⟨r, h1, h2⟩)
    · exact Or.inr (Or.inr ⟨r, h1, h2⟩)

/-- The threads of `validPath` started at the beginning of a text: there is
one exactly when the text is `/verb/title`, and it holds the two groups. -/
theorem mem_run_validPath (cs : List Char) (st : MState) :
    st ∈ validPath.run { pos := 0, rest := cs, caps := [] } ↔
      ∃ verb t, (verb = "edit".data ∨ verb = "save".data ∨ verb = "view".data) ∧
        cs = '/' :: (verb ++ '/' :: t) ∧ t ≠ [] ∧ (∀ c ∈ t, inClass alnumRanges c = true) ∧
        st = { pos := cs.length, rest := [], caps := [(2, t), (1, verb)] } := by
  unfold validPath
  simp only [mem_run_concat, mem_run_capture, mem_run_verbs, mem_run_lit, mem_run_beginText,
    mem_run_endText, mem_run_plus_class]
  constructor
  · rintro ⟨s1, ⟨-, rfl⟩, s2, ⟨tl, h1, rfl⟩, s3, ⟨s4, ⟨verb, r, hv, h2, rfl⟩, rfl⟩, s5,
      ⟨tl2, h3, rfl⟩, s6, ⟨s7, ⟨a, b, h4, h5, h6, rfl⟩, rfl⟩, h7, rfl⟩
    simp only at h1 h2 h3 h4 h7
    subst h7
    have hlen : verb.length = 4 := by rcases hv with rfl | rfl | rfl <;> rfl
    subst h1 h2 h3
    rw [List.append_nil] at h4
    subst h4
    refine ⟨verb, tl2, hv, rfl, h5, h6, ?_⟩
    simp [hlen]
    omega
  · rintro ⟨verb, t, hv, rfl, h5, h6, rfl⟩
    have hlen : verb.length = 4 := by rcases hv with rfl | rfl | rfl <;> rfl
    refine ⟨_, ⟨trivial, rfl⟩, _, ⟨_, rfl, rfl⟩, _, ⟨_, ⟨verb, _, hv, rfl, rfl⟩, rfl⟩, _,
      ⟨t, rfl, rfl⟩, _, ⟨_, ⟨t, [], by simp, h5, h6, rfl⟩, rfl⟩, rfl, ?_⟩
    simp [hlen]
    omega

theorem inClass_alnum (c : Char) : inClass alnumRanges c = c.isAlphanum := by
  simp only [inClass, alnumRanges, List.any_cons, List.any_nil, Char.isAlphanum, Char.isAlpha,
    Char.isUpper, Char.isLower, Char.isDigit, Bool.or_false]
  have e : ∀ a b : UInt32, (a ≤ b) = (a.toNat ≤ b.toNat) := fun a b => rfl
  have g : ∀ a b : UInt32, (a ≥ b) = (b.toNat ≤ a.toNat) := fun a b => rfl
  simp only [e, g, Char.toNat]
  have h1 : 'a'.val.toNat = 97 := rfl
  have h2 : 'z'.val.toNat = 122 := rfl
  have h3 : 'A'.val.toNat = 65 := rfl
  have h4 : 'Z'.val.toNat = 90 := rfl
  have h5 : '0'.val.toNat = 48 := rfl
  have h6 : '9'.val.toNat = 57 := rfl
  have k1 : UInt32.toNat 97 = 97 := rfl
  have k2 : UInt32.toNat 122 = 122 := rfl
  have k3 : UInt32.toNat 65 = 65 := rfl
  have k4 : UInt32.toNat 90 = 90 := rfl
  have k5 : UInt32.toNat 48 = 48 := rfl
  have k6 : UInt32.toNat 57 = 57 := rfl
  rw [Bool.eq_iff_iff]
  simp only [Bool.or_eq_true, Bool.and_eq_true, decide_eq_true_eq, h1, h2, h3, h4, h5, h6,
    k1, k2, k3, k4, k5, k6]
  generalize c.val.toNat = n
  omega

theorem run_validPath_succ (n : Nat) (text : List Char) :
    validPath.run { pos := n + 1, rest := text, caps := [] } = [] := by
  apply List.eq_nil_iff_forall_not_mem.mpr
  intro st hst
  unfold validPath at hst
  rw [mem_run_concat] at hst
  obtain ⟨s1, h1, -⟩ := hst
  rw [mem_run_beginText] at h1
  exact absurd h1.1 (Nat.succ_ne_zero n)

theorem searchFrom_validPath_succ (text : List Char) (n : Nat) :
    searchFrom validPath (n + 1) text = none := by
  induction text generalizing n with
  | nil => simp [searchFrom, matchAt, run_validPath_succ]
  | cons c cs ih => simp [searchFrom, matchAt, run_validPath_succ, ih]

theorem getTitle_eq (request : Request) :
    getTitle request =
      match (validPath.run { pos := 0, rest := request.Path.data, caps := [] }).head? with
      | some st => .ok (capText st.caps 2)
      | none => .error "invalid page title" := by
  have hn : validPath.numSubexp = 2 := by decide
  unfold getTitle Regex.FindStringSubmatch
  cases hp : request.Path.data with
  | nil =>
    cases h : (validPath.run { pos := 0, rest := [], caps := [] }).head? with
    | some st => simp [searchFrom, matchAt, h, submatches, hn, List.range_succ]
    | none => simp [searchFrom, matchAt, h]
  | cons c cs =>
    cases h : (validPath.run { pos := 0, rest := c :: cs, caps := [] }).head? with
    | some st => simp [searchFrom, matchAt, h, submatches, hn, List.range_succ]
    | none => simp [searchFrom, matchAt, h, searchFrom_validPath_succ]

theorem validPath_threads_agree (cs : List Char) (st st2 : MState)
    (h : st ∈ validPath.run { pos := 0, rest := cs, caps := [] })
    (h2 : st2 ∈ validPath.run { pos := 0, rest := cs, caps := [] }) : st = st2 := by
  obtain ⟨v, t, hv, e, -, -, rfl⟩ := (mem_run_validPath cs st).mp h
  obtain ⟨v2, t2, hv2, e2, -, -, rfl⟩ := (mem_run_validPath cs st2).mp h2
  have hl : v.length = v2.length := by
    rcases hv with rfl | rfl | rfl <;> rcases hv2 with rfl | rfl | rfl <;> rfl
  rw [e] at e2
  have e3 := List.append_inj (List.cons.inj e2).2 hl
  have e4 := (List.cons.inj e3.2).2
  rw [e3.1, e4]

theorem isTitlePath_iff (p t : String) :
    IsTitlePath p t ↔
      ∃ st, st ∈ validPath.run { pos := 0, rest := p.data, caps := [] } ∧
        capText st.caps 2 = t := by
  constructor
  · rintro ⟨verb, hv, rfl, hne, hal⟩
    refine ⟨MState.mk ("/" ++ verb ++ "/" ++ t).data.length [] [(2, t.data), (1, verb.data)],
      ?_, by simp [capText]⟩
    rw [mem_run_validPath]
    refine ⟨verb.data, t.data, ?_, by simp, ?_, ?_, rfl⟩
    · simp only [List.mem_cons, List.mem_singleton, List.not_mem_nil, or_false] at hv
      rcases hv with rfl | rfl | rfl <;> simp
    · intro h
      exact hne (String.ext h)
    · intro c hc
      rw [inClass_alnum]
      exact hal c hc
  · rintro ⟨st, hst, rfl⟩
    obtain ⟨v, t, hv, e, hne, hal, rfl⟩ := (mem_run_validPath _ _).mp hst
    refine ⟨String.mk v, ?_, ?_, ?_, ?_⟩
    · rcases hv with rfl | rfl | rfl <;> simp
    · apply String.ext
      simp [capText, e]
    · intro h
      apply hne
      simpa [capText] using congrArg String.data h
    · intro c hc
      rw [← inClass_alnum]
      apply hal
      simpa [capText] using hc

/-! ## The title check -/

theorem getTitle_ok_iff (request : Request) (t : String) :
    getTitle request = .ok t ↔ IsTitlePath request.Path t := by
  rw [getTitle_eq, isTitlePath_iff]
  cases h : (validPath.run { pos := 0, rest := request.Path.data, caps := [] }) with
  | nil => simp
  | cons st l =>
    have hst : st ∈ validPath.run { pos := 0, rest := request.Path.data, caps := [] } := by
      rw [h]; exact List.mem_cons_self _ _
    simp only [List.head?_cons, Except.ok.injEq]
    constructor
    · intro e
      exact ⟨st, List.mem_cons_self _ _, e⟩
    · rintro ⟨st2, h2, e⟩
      rw [← h] at h2
      rw [validPath_threads_agree _ _ _ hst h2]
      exact e

theorem getTitle_error (request : Request) (h : ∀ t, ¬ IsTitlePath request.Path t) :
    getTitle request = .error "invalid page title" := by
  rw [getTitle_eq]
  cases hr : (validPath.run { pos := 0, rest := request.Path.data, caps := [] }) with
  | nil => rfl
  | cons st l =>
    exfalso
    refine h (capText st.caps 2) ((isTitlePath_iff _ _).mpr ⟨st, ?_, rfl⟩)
    rw [hr]; exact List.mem_cons_self _ _

/-- C1.  `getTitle` succeeds with `t` exactly when the whole path is
`/verb/t` with `verb` one of `edit`, `save`, `view` and `t` a non-empty string
of characters of `[a-zA-Z0-9]`; on every path either that is so for some `t`
or `getTitle` returns the error `invalid page title`.  The four paths of the
specification behave as it says. -/
theorem getTitle_accepts_exactly_title_paths :
    (∀ (request : Request) (t : String),
      getTitle request = .ok t ↔ IsTitlePath request.Path t) ∧
    (∀ request : Request,
      (∃ t, IsTitlePath request.Path t) ∨ getTitle request = .error "invalid page title") ∧
    (∀ m a b u e q f, getTitle (Request.mk m a b u "/view/Home" e q f) = .ok "Home") ∧
    (∀ m a b u e q f, getTitle (Request.mk m a b u "/view/Home/extra" e q f)
      = .error "invalid page title") ∧
    (∀ m a b u e q f, getTitle (Request.mk m a b u "/view/" e q f)
      = .error "invalid page title") ∧
    (∀ m a b u e q f, getTitle (Request.mk m a b u "/view/../etc" e q f)
      = .error "invalid page title") := by
  refine ⟨getTitle_ok_iff, ?_, ?_, ?_, ?_, ?_⟩
  · intro request
    by_cases h : ∃ t, IsTitlePath request.Path t
    · exact Or.inl h
    · exact Or.inr (getTitle_error request (fun t ht => h ⟨t, ht⟩))
  all_goals intros; rfl

/-! ## Responses -/

theorem statusCode_Error_fresh (err : String) (code : Nat) :
    (Error ResponseWriter.fresh err code).statusCode = code := by
  simp [Error, ResponseWriter.fresh, ResponseWriter.Set, ResponseWriter.WriteHeader,
    ResponseWriter.Write, ResponseWriter.statusCode]

theorem statusCode_Error (w : ResponseWriter) (err : String) (code : Nat) :
    (Error w err code).statusCode = if w.wroteHeader then w.status else code := by
  by_cases h : w.wroteHeader = true <;>
    simp [Error, ResponseWriter.Set, ResponseWriter.WriteHeader, ResponseWriter.Write,
      ResponseWriter.statusCode, h]

theorem body_Error (w : ResponseWriter) (err : String) (code : Nat) :
    (Error w err code).body = w.body ++ (err ++ "\n") := by
  by_cases h : w.wroteHeader = true <;>
    simp [Error, ResponseWriter.Set, ResponseWriter.WriteHeader, ResponseWriter.Write, h]

theorem sentHeader_Error_fresh (err : String) (code : Nat) :
    (Error ResponseWriter.fresh err code).sentHeader "Location" = none := by
  simp [Error, ResponseWriter.fresh, ResponseWriter.Set, ResponseWriter.WriteHeader,
    ResponseWriter.Write, ResponseWriter.sentHeader]

theorem statusCode_Redirect_fresh (r : Request) (url : String) (code : Nat) :
    (Redirect ResponseWriter.fresh r url code).statusCode = code := by
  unfold Redirect
  simp only [ResponseWriter.fresh, List.any_nil, Bool.not_false, Bool.true_and]
  split <;> split <;>
    simp [ResponseWriter.Set, ResponseWriter.WriteHeader, ResponseWriter.Write,
      ResponseWriter.statusCode]

theorem sentHeader_Redirect_fresh (r : Request) (url : String) (code : Nat) :
    (Redirect ResponseWriter.fresh r url code).sentHeader "Location" =
      some (hexEscapeNonASCII (redirectTarget r url)) := by
  have hk : ("Content-Type" == "Location") = false := by decide
  unfold Redirect
  simp only [ResponseWriter.fresh, List.any_nil, Bool.not_false, Bool.true_and]
  split <;> split <;>
    simp [ResponseWriter.Set, ResponseWriter.WriteHeader, ResponseWriter.Write,
      ResponseWriter.sentHeader, hk]

/-! ## The gate -/

/-- C2.  For every handler `h`, request and state, the handler that
`makeHandler h` returns does one of two things.  Either `getTitle` succeeds
with a title `t`, which is then a valid title taken from a path `/verb/t`, and
the result is that of the one call `h request t` on the state as it was; or
`getTitle` fails, and the result is that of `http.NotFound` alone, which does
not depend on `h`, leaves the file system alone and, on a writer that has not
sent a status, gives the status 404. -/
theorem makeHandler_gates_on_title (handler : TitleHandler) (request : Request)
    (world : World) :
    (∃ t, getTitle request = .ok t ∧ IsTitlePath request.Path t ∧ ValidTitle t ∧
      makeHandler handler request world = handler request t world) ∨
    ((∃ err, getTitle request = .error err) ∧
      makeHandler handler request world =
        { world with responseWriter := NotFound world.responseWriter request } ∧
      (makeHandler handler request world).fs = world.fs ∧
      (makeHandler handler request world).responseWriter.statusCode =
        (if world.responseWriter.wroteHeader then world.responseWriter.status else 404)) := by
  cases h : getTitle request with
  | ok t =>
    left
    have hp := (getTitle_ok_iff request t).mp h
    obtain ⟨verb, -, -, hv⟩ := hp
    exact ⟨t, rfl, (getTitle_ok_iff request t).mp h, hv, by simp [makeHandler, h]⟩
  | error err =>
    right
    refine ⟨⟨err, rfl⟩, by simp [makeHandler, h], by simp [makeHandler, h], ?_⟩
    simp only [makeHandler, h, NotFound, statusCode_Error, StatusNotFound]

/-! ## Saving -/

/-- C8.  For every title and form body, when `Page.save` fails with the error
`e`, `saveHandler`, called with a fresh response writer, answers with the
status 500 and the body `e` followed by a newline, and sends no redirect: no
`Location` header goes out and the status is not 302. -/
theorem saveHandler_reports_save_error (env : Env) (request : Request) (t e : String)
    (world : World) (hw : world.responseWriter = ResponseWriter.fresh)
    (hsave : (Page.save env { Title := t, Body := request.FormValue "body" } world.fs).1
      = some e) :
    (saveHandler env request t world).responseWriter.statusCode = 500 ∧
    (saveHandler env request t world).responseWriter.body = e ++ "\n" ∧
    (saveHandler env request t world).responseWriter.sentHeader "Location" = none ∧
    (saveHandler env request t world).responseWriter.statusCode ≠ StatusFound := by
  have hres : (saveHandler env request t world).responseWriter =
      Error ResponseWriter.fresh e StatusInternalServerError := by
    unfold saveHandler
    simp only
    generalize Page.save env { Title := t, Body := request.FormValue "body" } world.fs = res
      at hsave
    obtain ⟨r1, r2⟩ := res
    simp only at hsave
    subst hsave
    simp [hw]
  rw [hres, statusCode_Error_fresh, body_Error, sentHeader_Error_fresh]
  refine ⟨rfl, ?_, rfl, by decide⟩
  simp [ResponseWriter.fresh]

/-! ## Lexical paths -/

theorem alnum_ranges (c : Char) (h : c.isAlphanum = true) :
    (48 ≤ c.toNat ∧ c.toNat ≤ 57) ∨ (65 ≤ c.toNat ∧ c.toNat ≤ 90) ∨
      (97 ≤ c.toNat ∧ c.toNat ≤ 122) := by
  rw [← inClass_alnum] at h
  simp only [inClass, alnumRanges, List.any_cons, List.any_nil, Bool.or_false, Bool.or_eq_true,
    Bool.and_eq_true, decide_eq_true_eq] at h
  have h1 : 'a'.toNat = 97 := rfl
  have h2 : 'z'.toNat = 122 := rfl
  have h3 : 'A'.toNat = 65 := rfl
  have h4 : 'Z'.toNat = 90 := rfl
  have h5 : '0'.toNat = 48 := rfl
  have h6 : '9'.toNat = 57 := rfl
  rw [h1, h2, h3, h4, h5, h6] at h
  omega

theorem alnum_ne (c d : Char) (h : c.isAlphanum = true)
    (hd : d.toNat < 48 ∨ (57 < d.toNat ∧ d.toNat < 65) ∨ (90 < d.toNat ∧ d.toNat < 97) ∨
      122 < d.toNat) : c ≠ d := by
  intro e
  subst e
  have := alnum_ranges c h
  omega

theorem splitSlash_ne_nil (cs : List Char) : splitSlash cs ≠ [] := by
  cases cs with
  | nil => simp [splitSlash]
  | cons c cs =>
    unfold splitSlash
    split
    · simp
    · split <;> simp

theorem splitSlash_append_slash (a b : List Char) :
    splitSlash (a ++ '/' :: b) = splitSlash a ++ splitSlash b := by
  induction a with
  | nil => simp [splitSlash]
  | cons c a ih =>
    by_cases hc : c = '/'
    · subst hc
      simp [splitSlash, ih]
    · have hne := splitSlash_ne_nil a
      cases hs : splitSlash a with
      | nil => exact absurd hs hne
      | cons h t =>
        have ih2 : splitSlash (a.append ('/' :: b)) = h :: (t ++ splitSlash b) := by
          show splitSlash (a ++ '/' :: b) = _
          rw [ih, hs]; rfl
        simp only [List.cons_append, splitSlash, hc, if_false, ih2, hs]

theorem splitSlash_no_slash (cs : List Char) (h : '/' ∉ cs) : splitSlash cs = [cs] := by
  induction cs with
  | nil => rfl
  | cons c cs ih =>
    have hc : c ≠ '/' := fun e => h (by rw [e]; exact List.mem_cons_self _ _)
    have hcs : '/' ∉ cs := fun e => h (List.mem_cons_of_mem _ e)
    simp [splitSlash, hc, ih hcs]

theorem cleanStep_name (rooted : Bool) (kept : List (List Char)) (e : List Char)
    (h : IsName e) : cleanStep rooted kept e = e :: kept := by
  obtain ⟨h1, h2, h3⟩ := h
  simp [cleanStep, h1, h2, h3]

theorem cleanStep_empty (rooted : Bool) (kept : List (List Char)) :
    cleanStep rooted kept [] = kept := by
  simp [cleanStep]

theorem Clean_eq (cs : List Char) (h : cs ≠ []) :
    Clean (String.mk cs) = renderKept (cs.head? == some '/') (keptOf (cs.head? == some '/') cs) := by
  have hne : String.mk cs ≠ "" := fun e => h (by simpa using congrArg String.data e)
  simp only [Clean, hne, if_false]

theorem keptOf_append_slash (rooted : Bool) (a b : List Char) :
    keptOf rooted (a ++ '/' :: b) = (splitSlash b).foldl (cleanStep rooted) (keptOf rooted a) := by
  simp [keptOf, splitSlash_append_slash, List.foldl_append]

theorem keptOf_append_name (rooted : Bool) (a e : List Char) (he : IsName e) (hs : '/' ∉ e) :
    keptOf rooted (a ++ '/' :: e) = e :: keptOf rooted a := by
  rw [keptOf_append_slash, splitSlash_no_slash e hs]
  simp [cleanStep_name rooted _ e he]

theorem keptOf_append_slash_only (rooted : Bool) (a : List Char) :
    keptOf rooted (a ++ ['/']) = keptOf rooted a := by
  rw [keptOf_append_slash]
  simp [splitSlash, cleanStep_empty]

theorem intercalate_append_singleton (sep : List Char) (l : List (List Char)) (x : List Char)
    (h : l ≠ []) :
    List.intercalate sep (l ++ [x]) = List.intercalate sep l ++ sep ++ x := by
  induction l with
  | nil => exact absurd rfl h
  | cons a l ih =>
    cases l with
    | nil => simp [List.intercalate, List.intersperse]
    | cons b l =>
      have := ih (by simp)
      simp only [List.intercalate, List.cons_append, List.intersperse, List.flatten_cons,
        List.append_assoc] at this ⊢
      have e : l.append [x] = l ++ [x] := rfl
      rw [e, this]

theorem renderKept_cons (rooted : Bool) (kept : List (List Char)) (e : List Char)
    (hk : kept ≠ []) (hk2 : List.intercalate ['/'] kept.reverse ≠ []) :
    renderKept rooted (e :: kept) = renderKept rooted kept ++ "/" ++ String.mk e := by
  have hr : kept.reverse ≠ [] := by simpa using hk
  unfold renderKept
  rw [List.reverse_cons, intercalate_append_singleton _ _ _ hr]
  cases rooted
  · simp only [Bool.false_eq_true, if_false, hk2]
    have : List.intercalate ['/'] kept.reverse ++ ['/'] ++ e ≠ [] := by simp
    simp only [this, if_false]
    apply String.ext
    simp
  · simp only [if_true]
    apply String.ext
    simp

/-! ## Redirect targets -/

theorem plain_ne (c d : Char) (h : PlainChar c)
    (hd : d.toNat < 47 ∨ (57 < d.toNat ∧ d.toNat < 65) ∨ (90 < d.toNat ∧ d.toNat < 97) ∨
      122 < d.toNat) : c ≠ d := by
  rcases h with rfl | h
  · intro e
    subst e
    have : '/'.toNat = 47 := rfl
    omega
  · exact alnum_ne c d h (by omega)

theorem cutAt_not_mem (sep : Char) (l : List Char) (h : sep ∉ l) : cutAt sep l = (l, none) := by
  induction l with
  | nil => rfl
  | cons c l ih =>
    have hc : c ≠ sep := fun e => h (by rw [e]; exact List.mem_cons_self _ _)
    have hl : sep ∉ l := fun e => h (List.mem_cons_of_mem _ e)
    simp [cutAt, hc, ih hl]

theorem validEscapes_not_mem (l : List Char) (h : '%' ∉ l) : validEscapes l = true := by
  induction l with
  | nil => rfl
  | cons c l ih =>
    have hc : c ≠ '%' := fun e => h (by rw [e]; exact List.mem_cons_self _ _)
    have hl : '%' ∉ l := fun e => h (List.mem_cons_of_mem _ e)
    simp [validEscapes, hc, ih hl]

theorem plain_not_mem (l : List Char) (h : ∀ c ∈ l, PlainChar c) (d : Char)
    (hd : d.toNat < 47 ∨ (57 < d.toNat ∧ d.toNat < 65) ∨ (90 < d.toNat ∧ d.toNat < 97) ∨
      122 < d.toNat) : d ∉ l :=
  fun hm => plain_ne d d (h d hm) hd rfl

theorem alnum_isName (a : List Char) (ha : ∀ c ∈ a, c.isAlphanum = true) (hne : a ≠ []) :
    IsName a := by
  refine ⟨hne, ?_, ?_⟩
  · intro e
    subst e
    exact alnum_ne '.' '.' (ha '.' (by simp)) (by decide) rfl
  · intro e
    subst e
    exact alnum_ne '.' '.' (ha '.' (by simp)) (by decide) rfl

theorem alnum_no_slash (a : List Char) (ha : ∀ c ∈ a, c.isAlphanum = true) : '/' ∉ a :=
  fun hm => alnum_ne '/' '/' (ha '/' hm) (by decide) rfl

theorem Clean_two_names (a t : List Char) (ha : IsName a) (hsa : '/' ∉ a) (ht : IsName t)
    (hst : '/' ∉ t) :
    Clean (String.mk ('/' :: (a ++ '/' :: t))) = String.mk ('/' :: (a ++ '/' :: t)) := by
  rw [Clean_eq _ (by simp)]
  have e : '/' :: (a ++ '/' :: t) = ('/' :: a) ++ '/' :: t := rfl
  have k : keptOf true ('/' :: a) = [a] := by
    have : '/' :: a = [] ++ '/' :: a := rfl
    rw [this, keptOf_append_name true [] a ha hsa]
    simp [keptOf, splitSlash, cleanStep_empty]
  simp only [List.head?_cons, beq_self_eq_true]
  rw [e, keptOf_append_name true _ t ht hst, k]
  simp [renderKept, List.intercalate, List.intersperse]

theorem isLocalReference_plain (l : List Char) (x : Char) (hx : x.isAlphanum = true)
    (hl : ∀ c ∈ l, PlainChar c) : isLocalReference (String.mk ('/' :: x :: l)) = true := by
  have hall : ∀ c ∈ '/' :: x :: l, PlainChar c := by
    intro c hc
    rcases List.mem_cons.mp hc with rfl | hc
    · exact Or.inl rfl
    · rcases List.mem_cons.mp hc with rfl | hc
      · exact Or.inr hx
      · exact hl c hc
  have hctl : ('/' :: x :: l).any (fun c => c.toNat < 32 || c.toNat == 127) = false := by
    rw [List.any_eq_false]
    intro c hc
    have hp := hall c hc
    simp only [Bool.or_eq_true, decide_eq_true_eq, beq_iff_eq, not_or]
    rcases hp with rfl | hp
    · decide
    · have := alnum_ranges c hp
      omega
  have hsharp := cutAt_not_mem '#' _ (plain_not_mem _ hall '#' (by decide))
  have hq := cutAt_not_mem '?' _ (plain_not_mem _ hall '?' (by decide))
  have hpc := validEscapes_not_mem _ (plain_not_mem _ hall '%' (by decide))
  have hxs : x ≠ '/' := alnum_ne x '/' hx (by decide)
  unfold isLocalReference
  simp only [hctl, hsharp, hq, hpc]
  simp [schemeScan, validEscapes, hxs, Ne.symm hxs]

theorem hexEscapeNonASCII_plain (l : List Char) (hl : ∀ c ∈ l, PlainChar c) :
    hexEscapeNonASCII (String.mk l) = String.mk l := by
  unfold hexEscapeNonASCII
  congr 1
  induction l with
  | nil => rfl
  | cons c l ih =>
    have hc : c.toNat < 128 := by
      rcases hl c (List.mem_cons_self _ _) with rfl | hp
      · decide
      · have := alnum_ranges c hp
        omega
    simp only [List.flatMap_cons, hc, if_true, List.singleton_append, List.cons.injEq, true_and]
    exact ih (fun d hd => hl d (List.mem_cons_of_mem _ hd))

theorem redirectTarget_two_names (r : Request) (a t : String) (ha : ValidTitle a)
    (ht : ValidTitle t) :
    redirectTarget r ("/" ++ a ++ "/" ++ t) = "/" ++ a ++ "/" ++ t ∧
    hexEscapeNonASCII ("/" ++ a ++ "/" ++ t) = "/" ++ a ++ "/" ++ t := by
  obtain ⟨hane, haal⟩ := ha
  obtain ⟨htne, htal⟩ := ht
  have hane2 : a.data ≠ [] := fun e => hane (String.ext e)
  have htne2 : t.data ≠ [] := fun e => htne (String.ext e)
  have hurl : "/" ++ a ++ "/" ++ t = String.mk ('/' :: (a.data ++ '/' :: t.data)) := by
    apply String.ext
    simp
  obtain ⟨x, a2, hxa⟩ := List.exists_cons_of_ne_nil hane2
  have hx : x.isAlphanum = true := haal x (by rw [hxa]; exact List.mem_cons_self _ _)
  have hrest : ∀ c ∈ a2 ++ '/' :: t.data, PlainChar c := by
    intro c hc
    rcases List.mem_append.mp hc with h | h
    · exact Or.inr (haal c (by rw [hxa]; exact List.mem_cons_of_mem _ h))
    · rcases List.mem_cons.mp h with rfl | h
      · exact Or.inl rfl
      · exact Or.inr (htal c h)
  have hall : ∀ c ∈ '/' :: (a.data ++ '/' :: t.data), PlainChar c := by
    intro c hc
    rcases List.mem_cons.mp hc with rfl | hc
    · exact Or.inl rfl
    · rw [hxa] at hc
      rcases List.mem_cons.mp hc with rfl | hc
      · exact Or.inr hx
      · exact hrest c hc
  have hloc : isLocalReference (String.mk ('/' :: (a.data ++ '/' :: t.data))) = true := by
    rw [hxa]
    exact isLocalReference_plain _ x hx hrest
  have hq := cutAt_not_mem '?' _ (plain_not_mem _ hall '?' (by decide))
  have hclean := Clean_two_names a.data t.data (alnum_isName _ haal hane2)
    (alnum_no_slash _ haal) (alnum_isName _ htal htne2) (alnum_no_slash _ htal)
  have hlast : ('/' :: (a.data ++ '/' :: t.data)).getLast? ≠ some '/' := by
    have e : '/' :: (a.data ++ '/' :: t.data) = ('/' :: (a.data ++ ['/'])) ++ t.data := by simp
    rw [e, List.getLast?_append_of_ne_nil _ htne2]
    intro h
    have hm := List.mem_of_getLast?_eq_some h
    exact alnum_no_slash _ htal hm
  refine ⟨?_, ?_⟩
  · rw [hurl]
    unfold redirectTarget
    simp only [hloc, if_true]
    simp [hq, hclean, hlast]
  · rw [hurl]
    exact hexEscapeNonASCII_plain _ hall

/-! ## The handlers -/

theorem statusCode_Write (w : ResponseWriter) (data : String) (h : w.statusCode = 200) :
    (w.Write data).statusCode = 200 := by
  by_cases hw : w.wroteHeader = true
  · simpa [ResponseWriter.Write, ResponseWriter.statusCode, hw] using h
  · simp [ResponseWriter.Write, ResponseWriter.WriteHeader, ResponseWriter.statusCode, hw]

theorem statusCode_foldl_Write (chunks : List String) (w : ResponseWriter)
    (h : w.statusCode = 200) :
    (chunks.foldl (fun w chunk => w.Write chunk) w).statusCode = 200 := by
  induction chunks generalizing w with
  | nil => exact h
  | cons c cs ih => exact ih _ (statusCode_Write w c h)

theorem statusCode_renderTemplate_fresh (env : Env) (name : String) (page : Page)
    (h : (env.templates (name ++ ".html") page).2 = none) :
    (renderTemplate env ResponseWriter.fresh name page).statusCode = 200 := by
  unfold renderTemplate
  simp only [h]
  exact statusCode_foldl_Write _ _ rfl

theorem loadPage_absent (env : Env) (fs : FS) (t path : String)
    (hp : getFilepath env (t ++ ".txt") contentPath = .ok path) (habs : fs path = none) :
    ∃ err, loadPage env fs t = .error err := by
  have hr : ∃ err, ReadFile fs path = .error err := by
    simp only [ReadFile, habs]
    split <;> exact ⟨_, rfl⟩
  obtain ⟨err, hr⟩ := hr
  exact ⟨err, by simp [loadPage, hp, hr]⟩

theorem viewHandler_load_error (env : Env) (request : Request) (t err : String) (world : World)
    (h : loadPage env world.fs t = .error err) :
    viewHandler env request t world =
      { world with
        responseWriter := Redirect world.responseWriter request (editPath ++ t) StatusFound } := by
  simp [viewHandler, h]

theorem editHandler_load_error (env : Env) (request : Request) (t err : String) (world : World)
    (h : loadPage env world.fs t = .error err) :
    editHandler env request t world =
      { world with
        responseWriter :=
          renderTemplate env world.responseWriter "edit" { Title := t, Body := "" } } := by
  simp [editHandler, h]

theorem validTitle_edit : ValidTitle "edit" := by
  refine ⟨by decide, ?_⟩
  intro c hc
  simp only [List.mem_cons, List.mem_singleton, List.not_mem_nil, or_false] at hc
  rcases hc with rfl | rfl | rfl | rfl <;> rfl

theorem validTitle_view : ValidTitle "view" := by
  refine ⟨by decide, ?_⟩
  intro c hc
  simp only [List.mem_cons, List.mem_singleton, List.not_mem_nil, or_false] at hc
  rcases hc with rfl | rfl | rfl | rfl <;> rfl

theorem redirect_edit_fresh (request : Request) (t : String) (ht : ValidTitle t) :
    (Redirect ResponseWriter.fresh request (editPath ++ t) StatusFound).statusCode = 302 ∧
    (Redirect ResponseWriter.fresh request (editPath ++ t) StatusFound).sentHeader "Location"
      = some ("/edit/" ++ t) := by
  have e : editPath ++ t = "/" ++ "edit" ++ "/" ++ t := by
    apply String.ext; simp [editPath]
  have e2 : "/edit/" ++ t = "/" ++ "edit" ++ "/" ++ t := by
    apply String.ext; simp
  obtain ⟨h1, h2⟩ := redirectTarget_two_names request "edit" t validTitle_edit ht
  rw [statusCode_Redirect_fresh, sentHeader_Redirect_fresh, e, h1, h2, e2]
  exact ⟨rfl, rfl⟩

theorem redirect_view_fresh (request : Request) (t : String) (ht : ValidTitle t) :
    (Redirect ResponseWriter.fresh request (viewPath ++ t) StatusFound).statusCode = 302 ∧
    (Redirect ResponseWriter.fresh request (viewPath ++ t) StatusFound).sentHeader "Location"
      = some ("/view/" ++ t) := by
  have e : viewPath ++ t = "/" ++ "view" ++ "/" ++ t := by
    apply String.ext; simp [viewPath]
  have e2 : "/view/" ++ t = "/" ++ "view" ++ "/" ++ t := by
    apply String.ext; simp
  obtain ⟨h1, h2⟩ := redirectTarget_two_names request "view" t validTitle_view ht
  rw [statusCode_Redirect_fresh, sentHeader_Redirect_fresh, e, h1, h2, e2]
  exact ⟨rfl, rfl⟩

/-- C4.  For every valid title `t` for which the store has no entry at the
path resolved for `t`, `viewHandler`, called with a fresh response writer,
answers with the redirect of `http.Redirect` alone: the status is 302, the
`Location` is `/edit/` followed by `t`, the file system is as it was, and no
template is executed, the result being the same whatever the templates are. -/
theorem viewHandler_missing_redirects_to_edit (env : Env) (request : Request)
    (t path : String) (world : World) (hw : world.responseWriter = ResponseWriter.fresh)
    (ht : ValidTitle t) (hp : getFilepath env (t ++ ".txt") contentPath = .ok path)
    (habs : world.fs path = none) :
    (viewHandler env request t world).responseWriter.statusCode = 302 ∧
    (viewHandler env request t world).responseWriter.sentHeader "Location"
      = some ("/edit/" ++ t) ∧
    (viewHandler env request t world).responseWriter =
      Redirect ResponseWriter.fresh request ("/edit/" ++ t) StatusFound ∧
    (viewHandler env request t world).fs = world.fs ∧
    (∀ templates2, viewHandler { env with templates := templates2 } request t world
      = viewHandler env request t world) := by
  obtain ⟨err, hl⟩ := loadPage_absent env world.fs t path hp habs
  have hv := viewHandler_load_error env request t _ world hl
  have hr := redirect_edit_fresh request t ht
  rw [hv, hw]
  refine ⟨hr.1, hr.2, rfl, rfl, ?_⟩
  intro templates2
  have hp2 : getFilepath { env with templates := templates2 } (t ++ ".txt") contentPath
      = .ok path := hp
  obtain ⟨err2, hl2⟩ :=
    loadPage_absent { env with templates := templates2 } world.fs t path hp2 habs
  rw [viewHandler_load_error _ request t _ world hl2, hw]

theorem viewHandler_missing_redirects_to_edit_witness :
    ValidTitle "Missing" ∧
    sampleStore "/srv/wiki/content/Missing.txt" = none ∧
    (viewHandler sampleEnv (sampleRequest "GET" "/view/Missing" "") "Missing"
      { responseWriter := ResponseWriter.fresh, fs := sampleStore }).responseWriter.statusCode
      = 302 ∧
    (viewHandler sampleEnv (sampleRequest "GET" "/view/Missing" "") "Missing"
      { responseWriter := ResponseWriter.fresh, fs := sampleStore }).responseWriter.sentHeader
        "Location" = some "/edit/Missing" :=
  ⟨by decide, by decide,
    (viewHandler_missing_redirects_to_edit sampleEnv (sampleRequest "GET" "/view/Missing" "")
      "Missing" "/srv/wiki/content/Missing.txt"
      { responseWriter := ResponseWriter.fresh, fs := sampleStore } rfl (by decide) (by decide)
      (by decide)).1,
    (viewHandler_missing_redirects_to_edit sampleEnv (sampleRequest "GET" "/view/Missing" "")
      "Missing" "/srv/wiki/content/Missing.txt"
      { responseWriter := ResponseWriter.fresh, fs := sampleStore } rfl (by decide) (by decide)
      (by decide)).2.1⟩

theorem save_ok_path (env : Env) (page : Page) (fs : FS)
    (h : (page.save env fs).1 = none) :
    ∃ path, getFilepath env (page.Title ++ ".txt") contentPath = .ok path ∧
      page.save env fs = WriteFile fs path page.Body := by
  unfold Page.save at h ⊢
  cases hp : getFilepath env (page.Title ++ ".txt") contentPath with
  | error err => simp [hp] at h
  | ok path => exact ⟨path, rfl, rfl⟩

theorem WriteFile_ok (fs : FS) (path data : String) (h : (WriteFile fs path data).1 = none) :
    (∃ r w, (WriteFile fs path data).2 path = some (.file data r w) ∧
      (∀ d0 r0 w0, fs path = some (.file d0 r0 w0) → r = r0) ∧ (fs path = none → r = true)) ∧
    ∀ q, q ≠ path → (WriteFile fs path data).2 q = fs q := by
  unfold WriteFile at h ⊢
  cases hn : fs path with
  | none =>
    simp only [hn] at h ⊢
    cases hd : fs (Dir path) with
    | none => simp [hd] at h
    | some node =>
      cases node with
      | file d r w => simp [hd] at h
      | dir w =>
        cases w with
        | false => simp [hd] at h
        | true =>
          simp only [hd]
          refine ⟨⟨true, true, by simp [FS.update], by simp, by simp⟩, ?_⟩
          intro q hq
          simp [FS.update, hq, hn]
  | some node =>
    cases node with
    | dir w => simp [hn] at h
    | file d r w =>
      cases w with
      | false => simp [hn] at h
      | true =>
        simp only [hn, if_true]
        refine ⟨⟨r, true, by simp [FS.update], ?_, by simp⟩, ?_⟩
        · intro d0 r0 w0 e
          simp only [Option.some.injEq, Node.file.injEq] at e
          exact e.2.1
        · intro q hq
          simp [FS.update, hq]

/-- C3.  For every valid title `t` and every form value `b` of the field
`body`, when the write succeeds, `saveHandler`, called with a fresh response
writer, leaves the file system with, at the path resolved for `t`, a regular
file holding exactly `b`, every other path as it was, and the response is a
redirect of status 302 whose `Location` is `/view/` followed by `t`. -/
theorem saveHandler_stores_body_and_redirects (env : Env) (request : Request) (t : String)
    (world : World) (hw : world.responseWriter = ResponseWriter.fresh) (ht : ValidTitle t)
    (hsave : (Page.save env { Title := t, Body := request.FormValue "body" } world.fs).1
      = none) :
    ∃ path, getFilepath env (t ++ ".txt") contentPath = .ok path ∧
      (∃ r w, (saveHandler env request t world).fs path
        = some (.file (request.FormValue "body") r w)) ∧
      (∀ q, q ≠ path → (saveHandler env request t world).fs q = world.fs q) ∧
      (saveHandler env request t world).responseWriter.statusCode = 302 ∧
      (saveHandler env request t world).responseWriter.sentHeader "Location"
        = some ("/view/" ++ t) := by
  obtain ⟨path, hp, hs⟩ := save_ok_path env _ world.fs hsave
  have hwf : (WriteFile world.fs path (request.FormValue "body")).1 = none := by
    rw [← hs]; exact hsave
  obtain ⟨⟨r, w, h1, -, -⟩, h2⟩ := WriteFile_ok _ _ _ hwf
  have hres : saveHandler env request t world =
      { responseWriter := Redirect ResponseWriter.fresh request (viewPath ++ t) StatusFound,
        fs := (WriteFile world.fs path (request.FormValue "body")).2 } := by
    unfold saveHandler
    simp only [hs]
    generalize WriteFile world.fs path (request.FormValue "body") = res at hwf
    obtain ⟨r1, r2⟩ := res
    simp only at hwf
    subst hwf
    simp [hw]
  have hr := redirect_view_fresh request t ht
  rw [hres]
  exact ⟨path, hp, ⟨r, w, h1⟩, h2, hr.1, hr.2⟩

theorem saveHandler_stores_body_and_redirects_witness :
    ValidTitle "Home" ∧
    ∃ path, getFilepath sampleEnv ("Home" ++ ".txt") contentPath = .ok path ∧
      (∃ r w, (saveHandler sampleEnv (sampleRequest "POST" "/save/Home" "hello") "Home"
        { responseWriter := ResponseWriter.fresh, fs := sampleStore }).fs path
        = some (.file ((sampleRequest "POST" "/save/Home" "hello").FormValue "body") r w)) ∧
      (∀ q, q ≠ path → (saveHandler sampleEnv (sampleRequest "POST" "/save/Home" "hello") "Home"
        { responseWriter := ResponseWriter.fresh, fs := sampleStore }).fs q = sampleStore q) ∧
      (saveHandler sampleEnv (sampleRequest "POST" "/save/Home" "hello") "Home"
        { responseWriter := ResponseWriter.fresh, fs := sampleStore }).responseWriter.statusCode
        = 302 ∧
      (saveHandler sampleEnv (sampleRequest "POST" "/save/Home" "hello") "Home"
        { responseWriter := ResponseWriter.fresh, fs := sampleStore }).responseWriter.sentHeader
          "Location" = some ("/view/" ++ "Home") :=
  ⟨by decide,
    saveHandler_stores_body_and_redirects sampleEnv (sampleRequest "POST" "/save/Home" "hello")
      "Home" { responseWriter := ResponseWriter.fresh, fs := sampleStore } rfl (by decide)
      (by decide)⟩

theorem saveHandler_reports_save_error_witness :
    (Page.save lostEnv
      (Page.mk "Home" ((sampleRequest "POST" "/save/Home" "hello").FormValue "body"))
      sampleStore).1
      = some "getwd: no such file or directory" ∧
    (saveHandler lostEnv (sampleRequest "POST" "/save/Home" "hello") "Home"
      { responseWriter := ResponseWriter.fresh, fs := sampleStore }).responseWriter.statusCode
      = 500 ∧
    (saveHandler lostEnv (sampleRequest "POST" "/save/Home" "hello") "Home"
      { responseWriter := ResponseWriter.fresh, fs := sampleStore }).responseWriter.body
      = "getwd: no such file or directory" ++ "\n" :=
  ⟨by decide,
    (saveHandler_reports_save_error lostEnv (sampleRequest "POST" "/save/Home" "hello") "Home"
      "getwd: no such file or directory"
      { responseWriter := ResponseWriter.fresh, fs := sampleStore } rfl (by decide)).1,
    (saveHandler_reports_save_error lostEnv (sampleRequest "POST" "/save/Home" "hello") "Home"
      "getwd: no such file or directory"
      { responseWriter := ResponseWriter.fresh, fs := sampleStore } rfl (by decide)).2.1⟩

/-- C5, counterexample.  The store has no entry for `Missing`, the templates
fail when executed, and `editHandler` answers with the status 500: the
response to a missing page can be an error response. -/
theorem editHandler_missing_can_answer_500 :
    getFilepath failingTemplatesEnv ("Missing" ++ ".txt") contentPath
      = .ok "/srv/wiki/content/Missing.txt" ∧
    sampleStore "/srv/wiki/content/Missing.txt" = none ∧
    (editHandler failingTemplatesEnv (sampleRequest "GET" "/edit/Missing" "") "Missing"
      { responseWriter := ResponseWriter.fresh, fs := sampleStore }).responseWriter.statusCode
      = 500 := by
  decide

theorem wroteHeader_foldl_Write (chunks : List String) (w : ResponseWriter)
    (h : w.wroteHeader = true) :
    (chunks.foldl (fun w chunk => w.Write chunk) w).wroteHeader = true ∧
    (chunks.foldl (fun w chunk => w.Write chunk) w).status = w.status := by
  induction chunks generalizing w with
  | nil => exact ⟨h, rfl⟩
  | cons c cs ih =>
    have h1 : (w.Write c).wroteHeader = true := by simp [ResponseWriter.Write, h]
    have h2 : (w.Write c).status = w.status := by simp [ResponseWriter.Write, h]
    obtain ⟨a, b⟩ := ih (w.Write c) h1
    exact ⟨a, b.trans h2⟩

theorem body_foldl_Write (chunks : List String) (w : ResponseWriter) :
    (chunks.foldl (fun w chunk => w.Write chunk) w).body
      = chunks.foldl (fun r s => r ++ s) w.body := by
  induction chunks generalizing w with
  | nil => rfl
  | cons c cs ih =>
    have h1 : (w.Write c).body = w.body ++ c := by
      by_cases h : w.wroteHeader = true <;>
        simp [ResponseWriter.Write, ResponseWriter.WriteHeader, h]
    simp only [List.foldl_cons]
    rw [ih, h1]

theorem renderTemplate_fresh (env : Env) (name : String) (page : Page) :
    (renderTemplate env ResponseWriter.fresh name page).statusCode =
      (if (env.templates (name ++ ".html") page).2.isSome = true ∧
          (env.templates (name ++ ".html") page).1 = [] then 500 else 200) ∧
    (renderTemplate env ResponseWriter.fresh name page).body =
      String.join (env.templates (name ++ ".html") page).1 ++
        (match (env.templates (name ++ ".html") page).2 with
          | some err => err ++ "\n"
          | none => "") := by
  unfold renderTemplate
  generalize env.templates (name ++ ".html") page = result
  obtain ⟨chunks, err⟩ := result
  have hbody := body_foldl_Write chunks ResponseWriter.fresh
  have hjoin : chunks.foldl (fun r s => r ++ s) ResponseWriter.fresh.body = String.join chunks :=
    rfl
  cases err with
  | none =>
    simp only [Option.isSome_none, Bool.false_eq_true, false_and, if_false]
    refine ⟨statusCode_foldl_Write _ _ rfl, ?_⟩
    rw [hbody, hjoin]
    simp
  | some e =>
    simp only [Option.isSome_some, true_and]
    refine ⟨?_, ?_⟩
    · rw [statusCode_Error]
      cases chunks with
      | nil => rfl
      | cons c cs =>
        have h1 : (ResponseWriter.fresh.Write c).wroteHeader = true := by
          simp [ResponseWriter.Write, ResponseWriter.WriteHeader, ResponseWriter.fresh]
        have h2 : (ResponseWriter.fresh.Write c).status = 200 := by
          simp [ResponseWriter.Write, ResponseWriter.WriteHeader, ResponseWriter.fresh]
        obtain ⟨a, b⟩ := wroteHeader_foldl_Write cs _ h1
        simp only [List.foldl_cons, a, if_true, b, h2]
        simp
    · rw [body_Error, hbody, hjoin]

/-- C5, amended.  For every title `t` for which the store has no entry at the
path resolved for `t`, `editHandler`, called with a fresh response writer,
renders the template `edit` with the page of title `t` and empty body and
changes nothing else.  The status is 500 exactly when executing the template
ends with an error before it has written anything, and 200 in every other
case; the body is what the template wrote, followed, when the execution ends
with an error, by the text of the error and a newline. -/
theorem editHandler_missing_renders_blank_page (env : Env) (request : Request)
    (t path : String) (world : World) (hw : world.responseWriter = ResponseWriter.fresh)
    (hp : getFilepath env (t ++ ".txt") contentPath = .ok path)
    (habs : world.fs path = none) :
    editHandler env request t world =
      { world with
        responseWriter :=
          renderTemplate env ResponseWriter.fresh "edit" { Title := t, Body := "" } } ∧
    (editHandler env request t world).responseWriter.statusCode =
      (if (env.templates "edit.html" { Title := t, Body := "" }).2.isSome = true ∧
          (env.templates "edit.html" { Title := t, Body := "" }).1 = [] then 500 else 200) ∧
    (editHandler env request t world).responseWriter.body =
      String.join (env.templates "edit.html" { Title := t, Body := "" }).1 ++
        (match (env.templates "edit.html" { Title := t, Body := "" }).2 with
          | some err => err ++ "\n"
          | none => "") := by
  obtain ⟨err, hl⟩ := loadPage_absent env world.fs t path hp habs
  have he := editHandler_load_error env request t _ world hl
  have hr := renderTemplate_fresh env "edit" { Title := t, Body := "" }
  rw [he, hw]
  exact ⟨rfl, hr.1, hr.2⟩

theorem editHandler_missing_renders_blank_page_witness :
    sampleStore "/srv/wiki/content/Missing.txt" = none ∧
    editHandler sampleEnv (sampleRequest "GET" "/edit/Missing" "") "Missing"
        { responseWriter := ResponseWriter.fresh, fs := sampleStore } =
      { responseWriter :=
          renderTemplate sampleEnv ResponseWriter.fresh "edit" { Title := "Missing", Body := "" },
        fs := sampleStore } ∧
    (editHandler sampleEnv (sampleRequest "GET" "/edit/Missing" "") "Missing"
      { responseWriter := ResponseWriter.fresh, fs := sampleStore }).responseWriter.statusCode
      = 200 ∧
    (editHandler sampleEnv (sampleRequest "GET" "/edit/Missing" "") "Missing"
      { responseWriter := ResponseWriter.fresh, fs := sampleStore }).responseWriter.body
      = "edit.htmlMissing" :=
  ⟨by decide,
    (editHandler_missing_renders_blank_page sampleEnv (sampleRequest "GET" "/edit/Missing" "")
      "Missing" "/srv/wiki/content/Missing.txt"
      { responseWriter := ResponseWriter.fresh, fs := sampleStore } rfl (by decide)
      (by decide)).1,
    (editHandler_missing_renders_blank_page sampleEnv (sampleRequest "GET" "/edit/Missing" "")
      "Missing" "/srv/wiki/content/Missing.txt"
      { responseWriter := ResponseWriter.fresh, fs := sampleStore } rfl (by decide)
      (by decide)).2.1,
    (editHandler_missing_renders_blank_page sampleEnv (sampleRequest "GET" "/edit/Missing" "")
      "Missing" "/srv/wiki/content/Missing.txt"
      { responseWriter := ResponseWriter.fresh, fs := sampleStore } rfl (by decide)
      (by decide)).2.2⟩

/-- C6, counterexample.  The entry of `Home` exists and may be written but not
read: `save` succeeds, and the `loadPage` that follows fails. -/
theorem save_then_load_can_fail :
    (Page.save sampleEnv { Title := "Home", Body := "new" } writeOnlyStore).1 = none ∧
    loadPage sampleEnv (Page.save sampleEnv { Title := "Home", Body := "new" } writeOnlyStore).2
      "Home" = .error "open /srv/wiki/content/Home.txt: permission denied" := by
  decide

/-- C6, amended.  For every title `t` and every body `b`, the empty one
included, if `save` of the page succeeds and the entry of `t` was not, before
the save, a file the process cannot read, then `loadPage t` on the file system
that `save` leaves succeeds and returns the page of title `t` and body `b`. -/
theorem save_then_load_round_trip (env : Env) (t b : String) (fs : FS)
    (hsave : (Page.save env { Title := t, Body := b } fs).1 = none)
    (hread : ∀ path d r w, getFilepath env (t ++ ".txt") contentPath = .ok path →
      fs path = some (.file d r w) → r = true) :
    loadPage env (Page.save env { Title := t, Body := b } fs).2 t
      = .ok { Title := t, Body := b } := by
  obtain ⟨path, hp, hs⟩ := save_ok_path env _ fs hsave
  simp only at hp hs
  have hwf : (WriteFile fs path b).1 = none := by
    rw [← hs]; exact hsave
  obtain ⟨⟨r, w, h1, h2, h3⟩, -⟩ := WriteFile_ok _ _ _ hwf
  have hr : r = true := by
    cases hn : fs path with
    | none => exact h3 hn
    | some node =>
      cases node with
      | file d0 r0 w0 =>
        rw [h2 d0 r0 w0 hn]
        exact hread path d0 r0 w0 hp hn
      | dir w0 =>
        simp [WriteFile, hn] at hwf
  subst hr
  rw [hs]
  simp [loadPage, hp, ReadFile, h1]

theorem save_then_load_round_trip_witness :
    (Page.save sampleEnv { Title := "New", Body := "" } sampleStore).1 = none ∧
    loadPage sampleEnv (Page.save sampleEnv { Title := "New", Body := "" } sampleStore).2 "New"
      = .ok { Title := "New", Body := "" } :=
  ⟨by decide,
    save_then_load_round_trip sampleEnv "New" "" sampleStore (by decide)
      (by
        intro path d r w hp hf
        have e : path = "/srv/wiki/content/New.txt" := by
          have h0 : getFilepath sampleEnv ("New" ++ ".txt") contentPath
              = .ok "/srv/wiki/content/New.txt" := by decide
          rw [h0] at hp
          exact (Except.ok.inj hp).symm
        subst e
        have h1 : sampleStore "/srv/wiki/content/New.txt" = none := by decide
        rw [h1] at hf
        cases hf)⟩

/-- C7, counterexample.  The entry of `Home` exists but cannot be read, so
reading it fails for a reason other than absence; `viewHandler` answers 302
and `editHandler` answers 200, neither answers 500. -/
theorem unreadable_entry_is_not_reported :
    writeOnlyStore "/srv/wiki/content/Home.txt" = some (.file "welcome" false true) ∧
    loadPage sampleEnv writeOnlyStore "Home"
      = .error "open /srv/wiki/content/Home.txt: permission denied" ∧
    (viewHandler sampleEnv (sampleRequest "GET" "/view/Home" "") "Home"
      { responseWriter := ResponseWriter.fresh, fs := writeOnlyStore }).responseWriter.statusCode
      = 302 ∧
    (editHandler sampleEnv (sampleRequest "GET" "/edit/Home" "") "Home"
      { responseWriter := ResponseWriter.fresh, fs := writeOnlyStore }).responseWriter.statusCode
      = 200 := by
  decide

/-- C7, amended.  For every valid title `t`, when loading the page fails, for
whatever reason, the absence of the entry or another one, `viewHandler`
answers with a redirect of status 302 to `/edit/` followed by `t`, and
`editHandler` renders the template `edit` with the page of title `t` and empty
body; the response of the view handler is that of `http.Redirect` alone, so
the error of the read is not sent, and the file system is as it was. -/
theorem handlers_recover_from_any_load_error (env : Env) (request : Request) (t err : String)
    (world : World) (hw : world.responseWriter = ResponseWriter.fresh) (ht : ValidTitle t)
    (hload : loadPage env world.fs t = .error err) :
    (viewHandler env request t world).responseWriter.statusCode = 302 ∧
    (viewHandler env request t world).responseWriter.sentHeader "Location"
      = some ("/edit/" ++ t) ∧
    (viewHandler env request t world).fs = world.fs ∧
    editHandler env request t world =
      { world with
        responseWriter :=
          renderTemplate env ResponseWriter.fresh "edit" { Title := t, Body := "" } } ∧
    (viewHandler env request t world).responseWriter =
      Redirect ResponseWriter.fresh request ("/edit/" ++ t) StatusFound := by
  have hv := viewHandler_load_error env request t _ world hload
  have he := editHandler_load_error env request t _ world hload
  have hr := redirect_edit_fresh request t ht
  rw [hv, he, hw]
  exact ⟨hr.1, hr.2, rfl, rfl, rfl⟩

theorem handlers_recover_from_any_load_error_witness :
    loadPage sampleEnv writeOnlyStore "Home"
      = .error "open /srv/wiki/content/Home.txt: permission denied" ∧
    (viewHandler sampleEnv (sampleRequest "GET" "/view/Home" "") "Home"
      { responseWriter := ResponseWriter.fresh, fs := writeOnlyStore }).responseWriter.statusCode
      = 302 :=
  ⟨by decide,
    (handlers_recover_from_any_load_error sampleEnv (sampleRequest "GET" "/view/Home" "") "Home"
      "open /srv/wiki/content/Home.txt: permission denied"
      { responseWriter := ResponseWriter.fresh, fs := writeOnlyStore } rfl (by decide)
      (by decide)).1⟩

/-! ## Path resolution -/

theorem intercalate_ne_nil (sep : List Char) (l : List (List Char)) (c : List Char)
    (hc : c ≠ []) : List.intercalate sep (l ++ [c]) ≠ [] := by
  by_cases hl : l = []
  · subst hl
    simpa [List.intercalate, List.intersperse] using hc
  · rw [intercalate_append_singleton sep l c hl]
    simp [hc]

theorem Clean_append_name (X : List Char) (hX : X ≠ []) (c : List Char) (K : List (List Char))
    (name : List Char) (hK : keptOf (X.head? == some '/') X = c :: K) (hc : c ≠ [])
    (hn : IsName name) (hs : '/' ∉ name) :
    Clean (String.mk (X ++ '/' :: name)) = Clean (String.mk X) ++ "/" ++ String.mk name := by
  have hhead : (X ++ '/' :: name).head? = X.head? := by
    cases X with
    | nil => exact absurd rfl hX
    | cons x X => rfl
  rw [Clean_eq _ (by simp), Clean_eq _ hX, hhead, keptOf_append_name _ _ _ hn hs, hK]
  apply renderKept_cons
  · simp
  · rw [List.reverse_cons]
    exact intercalate_ne_nil _ _ _ hc

theorem keptOf_content (rooted : Bool) (w : List Char) :
    keptOf rooted (w ++ '/' :: "/content/".data) = "content".data :: keptOf rooted w ∧
    keptOf rooted (w ++ '/' :: "content".data) = "content".data :: keptOf rooted w := by
  have hname : IsName "content".data := by
    refine ⟨by decide, by decide, by decide⟩
  have hsl : '/' ∉ "content".data := by decide
  have e : w ++ '/' :: "/content/".data = ((w ++ ['/']) ++ '/' :: "content".data) ++ ['/'] := by
    simp
  refine ⟨?_, keptOf_append_name rooted w _ hname hsl⟩
  rw [e, keptOf_append_slash_only, keptOf_append_name rooted _ _ hname hsl,
    keptOf_append_slash_only]

theorem txt_name (t : String) (ht : ValidTitle t) :
    IsName (t ++ ".txt").data ∧ '/' ∉ (t ++ ".txt").data := by
  have hlen : 4 ≤ (t ++ ".txt").data.length := by simp
  refine ⟨⟨?_, ?_, ?_⟩, ?_⟩
  · intro e; rw [e] at hlen; simp at hlen
  · intro e; rw [e] at hlen; simp at hlen
  · intro e; rw [e] at hlen; simp at hlen
  · intro hm
    simp only [String.data_append, List.mem_append] at hm
    rcases hm with hm | hm
    · exact alnum_no_slash _ ht.2 hm
    · revert hm; decide

theorem Join_content (w name : String) (hn : IsName name.data) (hs : '/' ∉ name.data) :
    Join [w, contentPath, name] = Clean (w ++ "/content") ++ "/" ++ name := by
  have hcne : "content".data ≠ [] := by decide
  by_cases hw : w = ""
  · subst hw
    have e1 : Join ["", contentPath, name] = Clean (String.mk ("/content/".data ++ '/' :: name.data)) := by
      have e0 : Join ["", contentPath, name] = Clean ("/content/" ++ "/" ++ name) := by
        simp [Join, contentPath, joinSlash]
      rw [e0]
      congr 1
    have hK : keptOf (("/content/".data).head? == some '/') "/content/".data
        = "content".data :: [] := by decide
    rw [e1, Clean_append_name _ (by decide) _ _ _ hK hcne hn hs]
    have e2 : Clean (String.mk "/content/".data) = Clean ("" ++ "/content") := by decide
    rw [e2]
  · have hwd : w.data ≠ [] := fun e => hw (String.ext e)
    have e1 : Join [w, contentPath, name] =
        Clean (String.mk ((w.data ++ '/' :: "/content/".data) ++ '/' :: name.data)) := by
      simp only [Join, hw, if_false, contentPath, joinSlash]
      congr 1
      apply String.ext
      simp
    have hhead : (w.data ++ '/' :: "/content/".data).head? = w.data.head? := by
      cases hd : w.data with
      | nil => exact absurd hd hwd
      | cons x X => rfl
    have hhead2 : (w.data ++ '/' :: "content".data).head? = w.data.head? := by
      cases hd : w.data with
      | nil => exact absurd hd hwd
      | cons x X => rfl
    have hK : keptOf ((w.data ++ '/' :: "/content/".data).head? == some '/')
        (w.data ++ '/' :: "/content/".data)
        = "content".data :: keptOf (w.data.head? == some '/') w.data := by
      rw [hhead]
      exact (keptOf_content _ _).1
    rw [e1, Clean_append_name _ (by simp) _ _ _ hK hcne hn hs]
    have e2 : Clean (String.mk (w.data ++ '/' :: "/content/".data)) = Clean (w ++ "/content") := by
      have e3 : w ++ "/content" = String.mk (w.data ++ '/' :: "content".data) := by
        apply String.ext; simp
      rw [e3, Clean_eq _ (by simp), Clean_eq _ (by simp), hhead, hhead2,
        (keptOf_content _ _).1, (keptOf_content _ _).2]
    rw [e2]

/-- C10.  For every valid title `t` and every working directory `w`, the path
that `save` and `loadPage` resolve for `t` is the cleaned form of `w/content`,
one slash, and the name `t.txt`; the name has no separator in it and is
neither `.` nor `..`, so the path names the file `t.txt` directly inside that
directory.  Hence, for a fixed `w`, two distinct valid titles resolve to two
distinct paths. -/
theorem getFilepath_resolves_inside_content (env : Env) (w t : String)
    (hwd : env.Getwd = .ok w) (ht : ValidTitle t) :
    getFilepath env (t ++ ".txt") contentPath
      = .ok (Clean (w ++ "/content") ++ "/" ++ (t ++ ".txt")) ∧
    '/' ∉ (t ++ ".txt").data ∧ t ++ ".txt" ≠ "." ∧ t ++ ".txt" ≠ ".." ∧
    ∀ t2, ValidTitle t2 → t2 ≠ t →
      getFilepath env (t2 ++ ".txt") contentPath ≠ getFilepath env (t ++ ".txt") contentPath := by
  have key : ∀ u, ValidTitle u → getFilepath env (u ++ ".txt") contentPath
      = .ok (Clean (w ++ "/content") ++ "/" ++ (u ++ ".txt")) := by
    intro u hu
    obtain ⟨h1, h2⟩ := txt_name u hu
    simp only [getFilepath, hwd]
    rw [Join_content w _ h1 h2]
  obtain ⟨⟨-, n2, n3⟩, hs⟩ := txt_name t ht
  refine ⟨key t ht, hs, ?_, ?_, ?_⟩
  · intro e; exact n2 (by rw [e])
  · intro e; exact n3 (by rw [e])
  · intro t2 ht2 hne e
    rw [key t ht, key t2 ht2] at e
    have e1 := congrArg String.data (Except.ok.inj e)
    simp only [String.data_append] at e1
    have e2 := List.append_cancel_right (List.append_cancel_left e1)
    exact hne (String.ext e2)

theorem getFilepath_resolves_inside_content_witness :
    ValidTitle "Home" ∧
    getFilepath sampleEnv ("Home" ++ ".txt") contentPath
      = .ok (Clean ("/srv/wiki" ++ "/content") ++ "/" ++ ("Home" ++ ".txt")) ∧
    Clean ("/srv/wiki" ++ "/content") ++ "/" ++ ("Home" ++ ".txt")
      = "/srv/wiki/content/Home.txt" :=
  ⟨by decide,
    (getFilepath_resolves_inside_content sampleEnv "/srv/wiki" "Home" rfl (by decide)).1,
    by decide⟩

/-! ## The server as wired in `main` -/

theorem routes_candidates (view edit save : TitleHandler) :
    (routes view edit save).entries.map (fun e => parsePattern e.pattern) =
      [⟨["view"], true, "/view/"⟩, ⟨["edit"], true, "/edit/"⟩, ⟨["save"], true, "/save/"⟩,
        ⟨[], true, "/"⟩] := by
  rfl

theorem match_routes (view edit save : TitleHandler) (path : String) :
    (routes view edit save).match path =
      matchSegs [⟨["view"], true, "/view/"⟩, ⟨["edit"], true, "/edit/"⟩,
        ⟨["save"], true, "/save/"⟩, ⟨[], true, "/"⟩] (pathSegments path) := by
  unfold ServeMux.match
  rw [routes_candidates]

theorem matchOrRedirect_routes (view edit save view2 edit2 save2 : TitleHandler)
    (path : String) (u : Option Request) :
    (routes view edit save).matchOrRedirect path u
      = (routes view2 edit2 save2).matchOrRedirect path u := by
  unfold ServeMux.matchOrRedirect
  simp only [match_routes]

theorem makeHandler_invalid (handler : TitleHandler) (request : Request) (world : World)
    (err : String) (h : getTitle request = .error err) :
    makeHandler handler request world = NotFoundHandler request world := by
  simp [makeHandler, h, NotFoundHandler]

theorem routes_entry_invalid (view edit save : TitleHandler) (request : Request)
    (world : World) (err : String) (h : getTitle request = .error err) (e : MuxEntry)
    (he : e ∈ (routes view edit save).entries) :
    e.h request world = NotFoundHandler request world := by
  have hr : (routes view edit save).entries =
      [⟨"/view/", makeHandler view⟩, ⟨"/edit/", makeHandler edit⟩,
        ⟨"/save/", makeHandler save⟩, ⟨"/", NotFoundHandler⟩] := rfl
  rw [hr] at he
  simp only [List.mem_cons, List.mem_singleton, List.not_mem_nil, or_false] at he
  rcases he with rfl | rfl | rfl | rfl
  · exact makeHandler_invalid _ _ _ _ h
  · exact makeHandler_invalid _ _ _ _ h
  · exact makeHandler_invalid _ _ _ _ h
  · rfl

theorem handlerOf_invalid (view edit save : TitleHandler) (request : Request) (world : World)
    (err : String) (h : getTitle request = .error err) (n : Option String) :
    (routes view edit save).handlerOf n request world = NotFoundHandler request world := by
  unfold ServeMux.handlerOf
  cases n with
  | none => rfl
  | some p =>
    simp only
    cases he : (routes view edit save).entries.find? (fun e => e.pattern == p) with
    | none => rfl
    | some e =>
      exact routes_entry_invalid view edit save request world err h e
        (List.mem_of_find?_eq_some he)

theorem findHandler_invalid (view edit save : TitleHandler) (request : Request) (world : World)
    (err : String) (h : getTitle request = .error err) :
    (routes view edit save).findHandler request request world = NotFoundHandler request world ∨
    ∃ url, (routes view edit save).findHandler request request world
      = RedirectHandler url StatusTemporaryRedirect request world := by
  unfold ServeMux.findHandler
  by_cases hc : request.Method = "CONNECT"
  · simp only [hc, if_true]
    cases hm : ((routes view edit save).matchOrRedirect request.EscapedPath (some request)).2 with
    | some u => exact Or.inr ⟨_, rfl⟩
    | none => exact Or.inl (handlerOf_invalid view edit save request world err h _)
  · simp only [hc, if_false]
    cases hm : (routes view edit save).matchOrRedirect (cleanPath request.EscapedPath)
      (some request) with
    | mk n u =>
      cases u with
      | some u => exact Or.inr ⟨_, rfl⟩
      | none =>
        simp only
        by_cases hp : (cleanPath request.EscapedPath != request.EscapedPath) = true
        · rw [if_pos hp]
          exact Or.inr ⟨_, rfl⟩
        · rw [if_neg hp]
          exact Or.inl (handlerOf_invalid view edit save request world err h _)

theorem findHandler_independent (view edit save view2 edit2 save2 : TitleHandler)
    (request : Request) (world : World) (err : String) (h : getTitle request = .error err) :
    (routes view edit save).findHandler request request world
      = (routes view2 edit2 save2).findHandler request request world := by
  unfold ServeMux.findHandler
  simp only [matchOrRedirect_routes view edit save view2 edit2 save2]
  by_cases hc : request.Method = "CONNECT"
  · simp only [hc, if_true]
    cases hm : ((routes view2 edit2 save2).matchOrRedirect request.EscapedPath
      (some request)).2 with
    | some u => rfl
    | none =>
      simp only
      rw [handlerOf_invalid _ _ _ _ _ err h, handlerOf_invalid _ _ _ _ _ err h]
  · simp only [hc, if_false]
    cases hm : (routes view2 edit2 save2).matchOrRedirect (cleanPath request.EscapedPath)
      (some request) with
    | mk n u =>
      cases u with
      | some u => rfl
      | none =>
        simp only
        by_cases hp : (cleanPath request.EscapedPath != request.EscapedPath) = true
        · rw [if_pos hp, if_pos hp]
        · rw [if_neg hp, if_neg hp, handlerOf_invalid _ _ _ _ _ err h,
            handlerOf_invalid _ _ _ _ _ err h]

theorem matchSegs_nil (segs : List String) : matchSegs [] segs = none := by
  induction segs with
  | nil => rfl
  | cons s rest ih => simp [matchSegs, ih]

theorem matchSegs_routes (s s2 : String) (rest : List String) (p : String)
    (h : matchSegs [⟨["view"], true, "/view/"⟩, ⟨["edit"], true, "/edit/"⟩,
      ⟨["save"], true, "/save/"⟩, ⟨[], true, "/"⟩] (s :: s2 :: rest) = some p) :
    p = "/" ∨ (p = "/view/" ∧ s = "view") ∨ (p = "/edit/" ∧ s = "edit") ∨
      (p = "/save/" ∧ s = "save") := by
  by_cases h1 : "view" = s
  · subst h1
    simp [matchSegs, matchSegs_nil] at h
    exact Or.inr (Or.inl ⟨h.symm, rfl⟩)
  · by_cases h2 : "edit" = s
    · subst h2
      simp [matchSegs, matchSegs_nil] at h
      exact Or.inr (Or.inr (Or.inl ⟨h.symm, rfl⟩))
    · by_cases h3 : "save" = s
      · subst h3
        simp [matchSegs, matchSegs_nil] at h
        exact Or.inr (Or.inr (Or.inr ⟨h.symm, rfl⟩))
      · simp [matchSegs, matchSegs_nil, h1, h2, h3] at h
        exact Or.inl h.symm

theorem pathSegments_slash_added (l : List Char) :
    pathSegments (String.mk ('/' :: l) ++ "/") =
      (splitSlash l).map (fun p => String.mk (pathUnescape p)) ++ ["/"] := by
  have hne : String.mk ('/' :: l) ++ "/" ≠ "" := by
    intro e
    have := congrArg String.data e
    simp at this
  have hd : (String.mk ('/' :: l) ++ "/").data.drop 1 = l ++ ['/'] := by simp
  have hs : splitSlash (l ++ ['/']) = splitSlash l ++ [[]] := by
    rw [splitSlash_append_slash]
    rfl
  unfold pathSegments
  simp only [hne, if_false, hd, hs]
  simp

theorem pathSegments_single (l : List Char) (hl : l ≠ []) (hs : '/' ∉ l) :
    pathSegments (String.mk ('/' :: l)) = [String.mk (pathUnescape l)] := by
  have hne : String.mk ('/' :: l) ≠ "" := by
    intro e
    have := congrArg String.data e
    simp at this
  unfold pathSegments
  simp only [hne, if_false, List.drop_succ_cons, List.drop_zero, splitSlash_no_slash l hs]
  simp [hl]

theorem count_slash_zero (l : List Char) (h : List.count '/' l = 0) : '/' ∉ l :=
  List.count_eq_zero.mp h

theorem no_slash_redirect (view edit save : TitleHandler) (l : List Char)
    (hseg : pathSegments (String.mk ('/' :: l)) ∉ [["view"], ["edit"], ["save"]])
    (hlast : ('/' :: l).getLast? ≠ some '/') :
    exactMatch ((routes view edit save).match (String.mk ('/' :: l) ++ "/"))
      (String.mk ('/' :: l) ++ "/") = false := by
  rw [match_routes, pathSegments_slash_added]
  have hlne : l ≠ [] := by
    intro e
    subst e
    exact hlast rfl
  obtain ⟨p1, ps, hp⟩ := List.exists_cons_of_ne_nil (splitSlash_ne_nil l)
  have hcount : (String.mk ('/' :: l) ++ "/").data.count '/' = l.count '/' + 2 := by
    simp [List.count_cons, List.count_append]
  have hnonempty : (String.mk ('/' :: l) ++ "/" != "") = true := by
    simp only [bne_iff_ne]
    intro e
    have := congrArg String.data e
    simp at this
  have hlastc : (String.mk ('/' :: l) ++ "/").data.getLast? = some '/' := by
    have e : (String.mk ('/' :: l) ++ "/").data = ('/' :: l) ++ ['/'] := by simp
    rw [e, List.getLast?_append_of_ne_nil _ (by simp)]
    rfl
  have hsegs : ∃ s2 rest, (splitSlash l).map (fun p => String.mk (pathUnescape p)) ++ ["/"]
      = String.mk (pathUnescape p1) :: s2 :: rest := by
    rw [hp]
    cases ps with
    | nil => exact ⟨"/", [], rfl⟩
    | cons q qs => exact ⟨_, _, rfl⟩
  obtain ⟨s2, rest, hsegs⟩ := hsegs
  rw [hsegs]
  cases hm : matchSegs [⟨["view"], true, "/view/"⟩, ⟨["edit"], true, "/edit/"⟩,
      ⟨["save"], true, "/save/"⟩, ⟨[], true, "/"⟩]
      (String.mk (pathUnescape p1) :: s2 :: rest) with
  | none => rfl
  | some p =>
    have single : ∀ verb : String, String.mk (pathUnescape p1) = verb → l.count '/' = 0 →
        pathSegments (String.mk ('/' :: l)) = [verb] := by
      intro verb hv hc
      have hno := count_slash_zero l hc
      have e1 : splitSlash l = [l] := splitSlash_no_slash l hno
      rw [e1] at hp
      have e2 : p1 = l := (List.cons.inj hp).1.symm
      rw [pathSegments_single l hlne hno, ← e2, hv]
    have hview : (parsePattern "/view/").multi = true ∧ (parsePattern "/view/").segs.length = 1 :=
      ⟨rfl, rfl⟩
    have hedit : (parsePattern "/edit/").multi = true ∧ (parsePattern "/edit/").segs.length = 1 :=
      ⟨rfl, rfl⟩
    have hsave : (parsePattern "/save/").multi = true ∧ (parsePattern "/save/").segs.length = 1 :=
      ⟨rfl, rfl⟩
    have hroot : (parsePattern "/").multi = true ∧ (parsePattern "/").segs.length = 0 :=
      ⟨rfl, rfl⟩
    rcases matchSegs_routes _ _ _ _ hm with rfl | ⟨rfl, hv⟩ | ⟨rfl, hv⟩ | ⟨rfl, hv⟩
    · simp only [exactMatch, hroot.1, hroot.2, hnonempty, hlastc, hcount]
      simp
    · simp only [exactMatch, hview.1, hview.2, hnonempty, hlastc, hcount]
      by_cases hc : l.count '/' = 0
      · exact absurd (by rw [single "view" hv hc]; simp) hseg
      · simp [hc]
    · simp only [exactMatch, hedit.1, hedit.2, hnonempty, hlastc, hcount]
      by_cases hc : l.count '/' = 0
      · exact absurd (by rw [single "edit" hv hc]; simp) hseg
      · simp [hc]
    · simp only [exactMatch, hsave.1, hsave.2, hnonempty, hlastc, hcount]
      by_cases hc : l.count '/' = 0
      · exact absurd (by rw [single "save" hv hc]; simp) hseg
      · simp [hc]

theorem cleanPath_head (p : String) : ∃ l, cleanPath p = String.mk ('/' :: l) := by
  unfold cleanPath
  by_cases hp : p = ""
  · simp only [hp, if_true]
    exact ⟨[], rfl⟩
  · simp only [hp, if_false]
    have hroot : ∀ q : String, q.data.head? = some '/' → ∃ l, Clean q = String.mk ('/' :: l) := by
      intro q hq
      have hq2 : q ≠ "" := by
        intro e; rw [e] at hq; cases hq
      simp only [Clean, hq2, if_false, hq, beq_self_eq_true, renderKept, if_true]
      exact ⟨_, rfl⟩
    have hp1 : (if (p.data.head? != some '/') = true then "/" ++ p else p).data.head?
        = some '/' := by
      by_cases hh : p.data.head? = some '/'
      · simp [hh]
      · simp [hh]
    generalize (if (p.data.head? != some '/') = true then "/" ++ p else p) = q at hp1
    obtain ⟨l, hl⟩ := hroot q hp1
    rw [hl]
    by_cases hc : (q.data.getLast? == some '/' && String.mk ('/' :: l) != "/") = true
    · rw [if_pos hc]
      exact ⟨l ++ ['/'], by apply String.ext; simp⟩
    · rw [if_neg hc]
      exact ⟨l, rfl⟩

theorem statusCode_NotFound_fresh (request : Request) :
    (NotFound ResponseWriter.fresh request).statusCode = 404 :=
  statusCode_Error_fresh _ _

theorem findHandler_canonical_invalid (view edit save : TitleHandler) (request : Request)
    (world : World) (err : String) (h : getTitle request = .error err)
    (hm : request.Method ≠ "CONNECT")
    (hc : cleanPath request.EscapedPath = request.EscapedPath)
    (hseg : pathSegments request.EscapedPath ∉ [["view"], ["edit"], ["save"]]) :
    (routes view edit save).findHandler request request world
      = NotFoundHandler request world := by
  obtain ⟨l, hl⟩ := cleanPath_head request.EscapedPath
  rw [hc] at hl
  have hmr : (routes view edit save).matchOrRedirect request.EscapedPath (some request) =
      ((routes view edit save).match request.EscapedPath, none) := by
    unfold ServeMux.matchOrRedirect
    simp only
    by_cases hlast : ('/' :: l).getLast? = some '/'
    · have : (request.EscapedPath.data.getLast? != some '/') = false := by
        rw [hl]; simp [hlast]
      simp [this]
    · have hno := no_slash_redirect view edit save l (by rw [← hl]; exact hseg) hlast
      rw [← hl] at hno
      simp [hno]
  unfold ServeMux.findHandler
  simp only [hm, if_false, hc, hmr, bne_self_eq_false, Bool.false_eq_true]
  exact handlerOf_invalid view edit save request world err h _

theorem serverHandler_independent (view edit save view2 edit2 save2 : TitleHandler)
    (request : Request) (world : World) (err : String) (h : getTitle request = .error err) :
    serverHandler (routes view edit save) request world
      = serverHandler (routes view2 edit2 save2) request world := by
  unfold serverHandler ServeMux.ServeHTTP
  by_cases hopt : request.RequestURI = "*" ∧ request.Method = "OPTIONS"
  · simp only [hopt, and_self, if_true]
  · simp only [hopt, if_false]
    by_cases hstar : request.RequestURI = "*"
    · simp only [hstar, if_true]
    · simp only [hstar, if_false]
      exact findHandler_independent view edit save view2 edit2 save2 request world err h

theorem serverHandler_invalid (view edit save : TitleHandler) (request : Request) (fs : FS)
    (err : String) (h : getTitle request = .error err) :
    (serverHandler (routes view edit save) request
      { responseWriter := ResponseWriter.fresh, fs := fs }).fs = fs ∧
    ((request.RequestURI = "*" ∧ request.Method = "OPTIONS" ∧
        (serverHandler (routes view edit save) request
          { responseWriter := ResponseWriter.fresh, fs := fs }).responseWriter.statusCode = 200) ∨
      (request.RequestURI = "*" ∧ request.Method ≠ "OPTIONS" ∧
        (serverHandler (routes view edit save) request
          { responseWriter := ResponseWriter.fresh, fs := fs }).responseWriter.statusCode = 400) ∨
      (request.RequestURI ≠ "*" ∧
        ((serverHandler (routes view edit save) request
          { responseWriter := ResponseWriter.fresh, fs := fs }).responseWriter.statusCode = 404 ∨
        (serverHandler (routes view edit save) request
          { responseWriter := ResponseWriter.fresh, fs := fs }).responseWriter.statusCode
          = 307))) := by
  by_cases hstar : request.RequestURI = "*"
  · by_cases hopt : request.Method = "OPTIONS"
    · have hres : serverHandler (routes view edit save) request
          { responseWriter := ResponseWriter.fresh, fs := fs } =
          globalOptionsHandler request { responseWriter := ResponseWriter.fresh, fs := fs } := by
        simp only [serverHandler]
        rw [if_pos ⟨hstar, hopt⟩]
      rw [hres]
      exact ⟨rfl, Or.inl ⟨hstar, hopt, rfl⟩⟩
    · have hres : serverHandler (routes view edit save) request
          { responseWriter := ResponseWriter.fresh, fs := fs } =
          { responseWriter :=
              (if request.ProtoMajor > 1 || (request.ProtoMajor == 1 && request.ProtoMinor >= 1)
                then ResponseWriter.fresh.Set "Connection" "close"
                else ResponseWriter.fresh).WriteHeader StatusBadRequest,
            fs := fs } := by
        simp only [serverHandler, ServeMux.ServeHTTP]
        rw [if_neg (fun hh => hopt hh.2), if_pos hstar]
      rw [hres]
      refine ⟨rfl, Or.inr (Or.inl ⟨hstar, hopt, ?_⟩)⟩
      simp only
      split <;> rfl
  · have hres : serverHandler (routes view edit save) request
        { responseWriter := ResponseWriter.fresh, fs := fs } =
        (routes view edit save).findHandler request request
          { responseWriter := ResponseWriter.fresh, fs := fs } := by
      simp only [serverHandler, ServeMux.ServeHTTP]
      rw [if_neg (fun hh => hstar hh.1), if_neg hstar]
    rw [hres]
    rcases findHandler_invalid view edit save request
      { responseWriter := ResponseWriter.fresh, fs := fs } err h with e | ⟨url, e⟩
    · rw [e]
      exact ⟨rfl, Or.inr (Or.inr ⟨hstar, Or.inl (statusCode_NotFound_fresh request)⟩)⟩
    · rw [e]
      exact ⟨rfl, Or.inr (Or.inr ⟨hstar, Or.inr (statusCode_Redirect_fresh request url _)⟩)⟩

/-- C9, counterexample.  The paths `/view/a/../b` and `/view` are not of the
form `/verb/title`, and the server as wired in `main` answers each with a
temporary redirect, status 307, to the cleaned path and to the route with its
slash, not with 404. -/
theorem main_redirects_unclean_path :
    getTitle (sampleRequest "GET" "/view/a/../b" "") = .error "invalid page title" ∧
    (main sampleEnv (sampleRequest "GET" "/view/a/../b" "") sampleStore).responseWriter.statusCode
      = 307 ∧
    (main sampleEnv (sampleRequest "GET" "/view/a/../b" "") sampleStore).responseWriter.sentHeader
      "Location" = some "/view/b" ∧
    getTitle (sampleRequest "GET" "/view" "") = .error "invalid page title" ∧
    (main sampleEnv (sampleRequest "GET" "/view" "") sampleStore).responseWriter.statusCode
      = 307 ∧
    (main sampleEnv (sampleRequest "GET" "/view" "") sampleStore).responseWriter.sentHeader
      "Location" = some "/view/" := by
  decide

/-- C9, amended.  For every request whose path is not of the form
`/verb/title` with a valid title, the server as wired in `main` leaves the
file system unchanged and runs no view, edit or save handler: the result is
the same whichever three handlers are registered.  For a request target other
than `*` the status is 404 or 307, the temporary redirect that the
multiplexer sends before any route; for the target `*` it is 200 when the
method is OPTIONS, the answer of the server itself, and 400 otherwise.  The
response is that of `http.NotFound`, status 404, whenever the target is not
`*`, the method is not CONNECT, the escaped path is in canonical form and its
elements, unescaped, are not the one element `view`, `edit` or `save`, a route
named without its final slash. -/
theorem main_answers_other_paths_without_handler (env : Env) (request : Request) (fs : FS)
    (h : ∀ t, ¬ IsTitlePath request.Path t) :
    (main env request fs).fs = fs ∧
    (∀ view edit save : TitleHandler,
      serverHandler (routes view edit save) request
        { responseWriter := ResponseWriter.fresh, fs := fs } = main env request fs) ∧
    ((request.RequestURI = "*" ∧ request.Method = "OPTIONS" ∧
        (main env request fs).responseWriter.statusCode = 200) ∨
      (request.RequestURI = "*" ∧ request.Method ≠ "OPTIONS" ∧
        (main env request fs).responseWriter.statusCode = 400) ∨
      (request.RequestURI ≠ "*" ∧
        ((main env request fs).responseWriter.statusCode = 404 ∨
          (main env request fs).responseWriter.statusCode = 307))) ∧
    (request.RequestURI ≠ "*" → request.Method ≠ "CONNECT" →
      cleanPath request.EscapedPath = request.EscapedPath →
      pathSegments request.EscapedPath ∉ [["view"], ["edit"], ["save"]] →
      (main env request fs).responseWriter = NotFound ResponseWriter.fresh request ∧
      (main env request fs).responseWriter.statusCode = 404) := by
  have hg := getTitle_error request h
  have hs := serverHandler_invalid (viewHandler env) (editHandler env) (saveHandler env)
    request fs _ hg
  refine ⟨hs.1, ?_, hs.2, ?_⟩
  · intro view edit save
    exact serverHandler_independent view edit save _ _ _ request _ _ hg
  · intro hstar hm hc hseg
    have e := findHandler_canonical_invalid (viewHandler env) (editHandler env)
      (saveHandler env) request { responseWriter := ResponseWriter.fresh, fs := fs } _ hg hm hc
      hseg
    have hres : main env request fs =
        (routes (viewHandler env) (editHandler env) (saveHandler env)).findHandler request
          request { responseWriter := ResponseWriter.fresh, fs := fs } := by
      simp only [main, serverHandler, ServeMux.ServeHTTP]
      rw [if_neg (fun hh => hstar hh.1), if_neg hstar]
    rw [hres, e]
    exact ⟨rfl, statusCode_NotFound_fresh request⟩

theorem main_answers_other_paths_without_handler_witness :
    (main sampleEnv (sampleRequest "GET" "/delete/Foo" "") sampleStore).fs = sampleStore ∧
    (main sampleEnv (sampleRequest "GET" "/delete/Foo" "") sampleStore).responseWriter.statusCode
      = 404 :=
  have hno : ∀ t, ¬ IsTitlePath (sampleRequest "GET" "/delete/Foo" "").Path t := by
    intro t ht
    have h1 := (getTitle_ok_iff (sampleRequest "GET" "/delete/Foo" "") t).mpr ht
    have h2 : getTitle (sampleRequest "GET" "/delete/Foo" "") = .error "invalid page title" := by
      decide
    rw [h2] at h1
    cases h1
  ⟨(main_answers_other_paths_without_handler sampleEnv (sampleRequest "GET" "/delete/Foo" "")
      sampleStore hno).1,
    ((main_answers_other_paths_without_handler sampleEnv (sampleRequest "GET" "/delete/Foo" "")
      sampleStore hno).2.2.2 (by decide) (by decide) (by decide) (by decide)).2⟩

end Wiki
